import Mathlib

/-!
# Verification of the `ctxtodo` analyzer (kylelemons/plumber)

Shallow embedding of `internal/ctxtodo/ctxtodo.go`.  Source positions
(`token.Pos`) are modelled as `Nat` (with `0` playing the role of
`token.NoPos`), Go strings as `String`, and the front-end's type/scope
oracle (`go/types`) as explicit data carried by the embedded program.
Definitions follow the Go source function by function; deviations forced
by the embedding are noted in comments on the definition they concern.
-/

namespace Ctxtodo

/-- A `go/types` type, as far as the analyzer inspects it: the analyzer only
ever asks whether a type is the named type `context.Context`
(`isContextContext`), dereferences pointers, and enumerates the declared
methods of a named type.  A method is modelled as
`(name, number of parameters, result types)`; `typeHasContextMethod` in the
source never reads the parameter count, which is kept so that the claimed
"zero-argument accessor" rule can be stated against it. -/
inductive GoType where
  | named (pkgPath : String) (name : String) (methods : List (String × Nat × List GoType))
  | pointer (elem : GoType)
  | basic
deriving Inhabited

/-- The named type `context.Context`. -/
def contextContext : GoType := .named "context" "Context" []

/-- Go source, `isContextContext`: the type is a `*types.Named` whose object's
package path is `"context"` and whose name is `"Context"`.  A `nil` package
(universe types) is modelled by an empty package path, which fails the test
just as the source's nil check does. -/
def isContextContext : GoType → Bool
  | .named pkgPath name _ => pkgPath == "context" && name == "Context"
  | _ => false

/-- Go source, `typeHasContextMethod`: dereference pointers; on a named type,
scan the declared methods for one named `Context` with exactly one result of
type `context.Context`.  The source never inspects the method's parameter
tuple. -/
def typeHasContextMethod : GoType → Bool
  | .pointer elem => typeHasContextMethod elem
  | .named _ _ methods =>
      methods.any fun m =>
        m.1 == "Context" && m.2.2.length == 1 && isContextContext (m.2.2.headD .basic)
  | .basic => false

/-- One formal parameter of a signature (`types.Var` from `Signature.Params()`):
its name (`""` when the parameter is unnamed), its declaration position and
its static type. -/
structure Param where
  name : String
  pos : Nat
  type : GoType
deriving Inhabited

/-- One entry of a `types.Scope`, as enumerated by `Scope.Names()` /
`Scope.Lookup`.  For a function scope (`TypesInfo.Scopes[*ast.FuncType]`)
`go/types` records the parameters, named results and the function-body-level
locals, in name-sorted order; the list is taken in that enumeration order. -/
structure ScopeEntry where
  name : String
  pos : Nat
  type : GoType
deriving Inhabited

/-- One `*ast.Field` of a function literal's parameter `FieldList`: its list of
names (empty for an unnamed field), its position, and the type recorded for it
in `TypesInfo.Types` (`none` when that lookup fails, in which case the source
`continue`s). -/
structure GoField where
  names : List String
  pos : Nat
  type : Option GoType
deriving Inhabited

/-- Diagnostics emitted through `Reportf` / `ReportRangef` (no suggested
fixes): the "Name this param if you want plumber to use it" report at a
parameter or field position, and the "Non-context ctx parameter" report on a
function declaration (identified by the declaration's id). -/
inductive Report where
  | naming (pos : Nat)
  | ambiguity (declId : Nat)
deriving DecidableEq, Inhabited

/-- An `analysis.TextEdit`: half-open range `[pos, endPos)` replaced by
`newText` (`""` models a nil `NewText`, i.e. a pure deletion). -/
structure TextEdit where
  pos : Nat
  endPos : Nat
  newText : String
deriving DecidableEq, Inhabited

/-- Go source, `hasContextProviderParam`, inner loop from parameter index `i`.
For an unnamed parameter the name `unnamedParam<i>` is synthesized and, if the
parameter would qualify, the naming report is emitted — and the scan then
still returns the synthetic name as the provider expression (this matches the
source and its golden test, where the rewrite uses `unnamedParam0`). -/
def hasContextProviderParamAux : Nat → List Param → List Report × Option String
  | _, [] => ([], none)
  | i, p :: rest =>
    let paramName := if p.name == "" then "unnamedParam" ++ toString i else p.name
    let reps : List Report :=
      if p.name == "" && (isContextContext p.type || typeHasContextMethod p.type) then
        [.naming p.pos]
      else []
    if isContextContext p.type then (reps, some paramName)
    else if typeHasContextMethod p.type then (reps, some (paramName ++ ".Context()"))
    else
      let (reps2, r) := hasContextProviderParamAux (i + 1) rest
      (reps ++ reps2, r)

/-- Go source, `hasContextProviderParam` applied to a signature's parameter
tuple. -/
def hasContextProviderParam (params : List Param) : List Report × Option String :=
  hasContextProviderParamAux 0 params

/-- Go source, `hasContextProviderField`, inner loop from field index `i`:
the `FieldList` variant used for function literals.  A field lacking type
information is skipped; a named field uses its first name; an unnamed field
gets the synthetic `unnamedParam<i>` name plus the naming report when it would
qualify, and is still returned as a provider. -/
def hasContextProviderFieldAux : Nat → List GoField → List Report × Option String
  | _, [] => ([], none)
  | i, f :: rest =>
    match f.type with
    | none => hasContextProviderFieldAux (i + 1) rest
    | some t =>
      let fieldName := match f.names with
        | n :: _ => n
        | [] => "unnamedParam" ++ toString i
      let reps : List Report :=
        if f.names.isEmpty && (isContextContext t || typeHasContextMethod t) then
          [.naming f.pos]
        else []
      if isContextContext t then (reps, some fieldName)
      else if typeHasContextMethod t then (reps, some (fieldName ++ ".Context()"))
      else
        let (reps2, r) := hasContextProviderFieldAux (i + 1) rest
        (reps ++ reps2, r)

/-- Go source, `hasContextProviderField` applied to a `FieldList`. -/
def hasContextProviderField (fields : List GoField) : List Report × Option String :=
  hasContextProviderFieldAux 0 fields

/-- Go source, `hasContextProviderInScope`: scan the scope's entries (in the
order `Scope.Names()` yields them), skipping any entry whose declaration
position is not strictly before `atPos`. -/
def hasContextProviderInScope (scope : List ScopeEntry) (atPos : Nat) : Option String :=
  match scope with
  | [] => none
  | v :: rest =>
    if v.pos ≥ atPos then hasContextProviderInScope rest atPos
    else if isContextContext v.type then some v.name
    else if typeHasContextMethod v.type then some (v.name ++ ".Context()")
    else hasContextProviderInScope rest atPos

/-- A function declaration (`*ast.FuncDecl` together with its `*types.Func`
object): its identity (`types.Object` identity, unique per declaration),
name, package name, source file name, exportedness, receiver presence, the
signature's parameter tuple, the function scope
(`TypesInfo.Scopes[decl.Type]`), and the positions the edit constructors
read (`Body.Lbrace`, `Type.Params.Opening`). -/
structure FuncDecl where
  id : Nat
  name : String
  pkgName : String
  fileName : String
  exported : Bool
  hasRecv : Bool
  params : List Param
  scope : List ScopeEntry
  lbrace : Nat
  paramsOpening : Nat
deriving Inhabited

/-- One node of an `astPath` (the inspector stack recorded by `forStack`),
restricted to what `hasContextProviderInPath` distinguishes: assignment
statements (which reset the query position), function declarations, function
literals (with their parameter `FieldList` and function scope), and every
other node kind (blocks, if/for statements, call expressions, files, ...),
which the source's `switch` has no case for; such a node may own a lexical
scope in `TypesInfo.Scopes`, carried here as data, but the source never
consults it. -/
inductive PathNode where
  | assignStmt (pos : Nat)
  | funcDeclNode (d : FuncDecl)
  | funcLitNode (fields : List GoField) (scope : List ScopeEntry)
  | blockNode (scope : List ScopeEntry)
deriving Inhabited

/-- Go source, `hasContextProviderInPath`, after flipping the path so that the
innermost node (the one `astPath.pop` returns) comes first.  At an assignment
the query position is reset to the assignment's start; at a declaration or
literal the formal parameters are checked first, then the function scope; any
other node falls through to the outer path. -/
def hasContextProviderInPathRev : Nat → List PathNode → List Report × Option String
  | _, [] => ([], none)
  | atPos, node :: rest =>
    match node with
    | .assignStmt pos => hasContextProviderInPathRev pos rest
    | .funcDeclNode d =>
      match hasContextProviderParam d.params with
      | (reps, some expr) => (reps, some expr)
      | (reps, none) =>
        match hasContextProviderInScope d.scope atPos with
        | some expr => (reps, some expr)
        | none =>
          let (reps2, r) := hasContextProviderInPathRev atPos rest
          (reps ++ reps2, r)
    | .funcLitNode fields scope =>
      match hasContextProviderField fields with
      | (reps, some expr) => (reps, some expr)
      | (reps, none) =>
        match hasContextProviderInScope scope atPos with
        | some expr => (reps, some expr)
        | none =>
          let (reps2, r) := hasContextProviderInPathRev atPos rest
          (reps ++ reps2, r)
    | .blockNode _ => hasContextProviderInPathRev atPos rest

/-- Go source, `hasContextProviderInPath`: the path is stored in inspector
order (outermost first), and the source pops from the end; this reverses once
and recurses. -/
def hasContextProviderInPath (path : List PathNode) (atPos : Nat) :
    List Report × Option String :=
  hasContextProviderInPathRev atPos path.reverse

/-- Go source, `astPath.decl`: the last `*ast.FuncDecl` on the path (paths are
in inspector order, outermost first). -/
def pathDecl (p : List PathNode) : Option FuncDecl :=
  p.foldl (fun acc n => match n with | .funcDeclNode d => some d | _ => acc) none

/-- Go source, `isMainOrInit`: `main` in a package named `main`, or a
receiverless `init`. -/
def isMainOrInit (d : FuncDecl) : Bool :=
  (d.pkgName == "main" && d.name == "main") || (d.name == "init" && !d.hasRecv)

/-- `'A' ≤ c ≤ 'Z'`, the character class `[A-Z]` of the source's regexp. -/
def isAsciiUpper (c : Char) : Bool := 'A' ≤ c && c ≤ 'Z'

/-- `s` starts with the literal `pre` followed by an ASCII uppercase letter:
the regexp `^(Test|Benchmark|Fuzz)[A-Z]` specialised to one alternative. -/
def prefixThenUpper : List Char → List Char → Bool
  | [], c :: _ => isAsciiUpper c
  | _ :: _, [] => false
  | p :: ps, c :: cs => p == c && prefixThenUpper ps cs
  | [], [] => false

/-- Go's `strings.HasSuffix`, computed on character lists. -/
def hasSuffixStr (s suffix : String) : Bool :=
  suffix.toList.isSuffixOf s.toList

/-- Go's `strings.HasPrefix`, computed on character lists. -/
def hasPrefixStr (s pre : String) : Bool :=
  pre.toList.isPrefixOf s.toList

/-- Go source, `topLevelTestFunc.MatchString`: the anchored regexp
`^(Test|Benchmark|Fuzz)[A-Z]`. -/
def topLevelTestFuncMatch (s : String) : Bool :=
  prefixThenUpper "Test".toList s.toList ||
  prefixThenUpper "Benchmark".toList s.toList ||
  prefixThenUpper "Fuzz".toList s.toList

/-- Go source, `isTopLevelTestFunc`: the declaration's file name ends in
`_test.go` and the function name matches the test/benchmark/fuzz pattern. -/
def isTopLevelTestFunc (d : FuncDecl) : Bool :=
  hasSuffixStr d.fileName "_test.go" && topLevelTestFuncMatch d.name

/-- The positions of a `*ast.CallExpr` that the rewrites read: `Pos()`,
`End()` and `Lparen`. -/
structure CallExprInfo where
  pos : Nat
  endPos : Nat
  lparen : Nat
deriving DecidableEq, Inhabited

/-- The part of a matched `ctx := context.TODO()` / `_ = context.TODO()`
assignment that `rewriteTODO` reads: the assignment's `Pos()` and the
`Rparen` of its right-hand call (the deletion runs to `Rparen + 1`). -/
structure AssignInfo where
  pos : Nat
  rhsRparen : Nat
deriving DecidableEq, Inhabited

/-- Go source, `localCall`: the inspector path of the enclosing context, the
call expression, and the matched assignment when the call came from
`walkAssignStmt`. -/
structure LocalCall where
  path : List PathNode
  call : CallExprInfo
  assign : Option AssignInfo
deriving Inhabited

/-- What `editToImportContext` reads about one `*ast.File`: its name, whether
it already imports `"context"`, the `Lparen` of its first parenthesized import
block (if any), and the position of its first declaration (if any). -/
structure FileInfo where
  name : String
  hasContextImport : Bool
  importBlockLparen : Option Nat
  firstDeclPos : Option Nat
deriving Inhabited

/-- The output of `buildCallGraph`, i.e. the input of `buildDiagnostics`: the
package's function declarations, the `callers` map (keyed by the callee
declaration's id), the direct `context.TODO` requests, the continuation calls
into functions carrying a `NeedsContext` fact, and the package's files. -/
structure Program where
  decls : List FuncDecl
  callersMap : List (Nat × List LocalCall)
  todos : List LocalCall
  transitives : List LocalCall
  files : List FileInfo
deriving Inhabited

/-- Lookup in the `callers` map (Go: `r.callers[obj]`, missing key yields the
empty list). -/
def callersOf (prog : Program) (id : Nat) : List LocalCall :=
  match prog.callersMap.find? (fun kv => kv.1 == id) with
  | some kv => kv.2
  | none => []

/-- The ids of the package's declarations. -/
def idList (prog : Program) : List Nat := prog.decls.map (·.id)

/-- The runner's diagnostic state threaded through `buildDiagnostics`:
`paramAdded` (ids of declarations already augmented), `contextImported`
(files already given an import edit), the exported `NeedsContext` facts, and
the reports emitted through `Reportf` / `ReportRangef`. -/
structure PassState where
  paramAdded : List Nat
  contextImported : List String
  facts : List Nat
  reports : List Report
deriving Inhabited

/-- One walk's state: the per-walk `seen` set (Go allocates a fresh
`map[types.Object]bool` at the top of `rewriteTODO` / `rewriteTransitives`)
together with the pass-wide state. -/
structure WalkState where
  seen : List Nat
  ps : PassState
deriving Inhabited

/-- Go source, `editToAddContextVarDecl`: insert `ctx := <call>;` right after
the body's opening brace. -/
def editToAddContextVarDecl (d : FuncDecl) (call : String) : TextEdit :=
  ⟨d.lbrace + 1, d.lbrace + 1, "ctx := " ++ call ++ ";"⟩

/-- Go source, `editToPrependCtxParam`: insert `ctx context.Context, ` right
after the parameter list's opening parenthesis. -/
def editToPrependCtxParam (d : FuncDecl) : TextEdit :=
  ⟨d.paramsOpening + 1, d.paramsOpening + 1, "ctx context.Context, "⟩

/-- Go source, `editToPrependExpr`: insert `<varname>, ` right after the
call's opening parenthesis. -/
def editToPrependExpr (call : CallExprInfo) (varname : String) : TextEdit :=
  ⟨call.lparen + 1, call.lparen + 1, varname ++ ", "⟩

/-- Go source, `editToImportContext`.  The source maps the given position to a
file name through the `FileSet` and scans `r.Files` for it; here the file
name is resolved the same way by the caller (every declaration carries its
file name) and looked up in the program's file list.  The `contextImported`
flag is set before the existing-import scan, exactly as in the source. -/
def editToImportContext (st : PassState) (prog : Program) (fileName : String) :
    PassState × List TextEdit :=
  match prog.files.find? (fun f => f.name == fileName) with
  | none => (st, [])
  | some f =>
    if st.contextImported.contains f.name then (st, [])
    else
      let st := { st with contextImported := f.name :: st.contextImported }
      if f.hasContextImport then (st, [])
      else
        match f.importBlockLparen with
        | some p => (st, [⟨p + 1, p + 1, "\"context\";"⟩])
        | none =>
          match f.firstDeclPos with
          | some p => (st, [⟨p, p, "import \"context\";"⟩])
          | none => (st, [])

/-- The early-return prefix of `propagateContextThrough`, run after the `seen`
and `paramAdded` guards: the scan for a parameter named `ctx` (returning, with
an ambiguity report when it has the wrong type), the entry-point check
(declare a local root context), and the provider-parameter check (declare a
local alias).  Returns `some edits` when the source returns there, `none`
when it falls through to the parameter injection; the naming reports of the
failed provider scan are still recorded, as the source emits them as side
effects. -/
def earlyBranch (prog : Program) (d : FuncDecl) (st : PassState) :
    PassState × Option (List TextEdit) :=
  match d.params.find? (fun p => p.name == "ctx") with
  | some p =>
    if isContextContext p.type then (st, some [])
    else ({ st with reports := st.reports ++ [.ambiguity d.id] }, some [])
  | none =>
    if isMainOrInit d || isTopLevelTestFunc d then
      let imp := editToImportContext st prog d.fileName
      (imp.1, some (editToAddContextVarDecl d "context.Background()" :: imp.2))
    else
      let res := hasContextProviderParam d.params
      match res.2 with
      | some expr =>
        let st1 := { st with reports := st.reports ++ res.1 }
        let imp := editToImportContext st1 prog d.fileName
        (imp.1, some (editToAddContextVarDecl d expr :: imp.2))
      | none =>
        ({ st with reports := st.reports ++ res.1 }, none)

mutual

/-- Go source, `propagateContextThrough`.  The `seen` set is threaded exactly
as the source's mutable map; `allowance` is a termination bound (initially the
package's declaration ids) that shrinks with every declaration actually
entered — for the runs the source performs every entered declaration is a
package declaration not yet seen, so the extra `allowance` guard never
fires. -/
def propagateThrough (prog : Program) (allowance : List Nat)
    (od : Option FuncDecl) (ws : WalkState) : WalkState × List TextEdit :=
  match od with
  | none => (ws, [])
  | some d =>
    if ws.seen.contains d.id then (ws, [])
    else
      let ws1 : WalkState := { ws with seen := d.id :: ws.seen }
      if hmem : allowance.contains d.id then
        if ws1.ps.paramAdded.contains d.id then (ws1, [])
        else
          let ws2 : WalkState :=
            { ws1 with ps := { ws1.ps with paramAdded := d.id :: ws1.ps.paramAdded } }
          let eb := earlyBranch prog d ws2.ps
          match eb.2 with
          | some edits => ({ ws2 with ps := eb.1 }, edits)
          | none =>
            let st4 : PassState :=
              if d.exported then { eb.1 with facts := d.id :: eb.1.facts } else eb.1
            let imp := editToImportContext st4 prog d.fileName
            let rec5 :=
              propagateCalls prog (allowance.erase d.id) (callersOf prog d.id)
                { ws2 with ps := imp.1 }
            (rec5.1, editToPrependCtxParam d :: (imp.2 ++ rec5.2))
      else (ws1, [])
termination_by (allowance.length, 0, 0)
decreasing_by
  apply Prod.Lex.left
  have hm : d.id ∈ allowance := by simpa using hmem
  have h1 := List.length_erase_of_mem hm
  have h2 := List.length_pos_of_mem hm
  omega

/-- Go source, `propagateContextForCall`: reuse a provider visible at the
call site, or ensure the calling declaration has a `ctx` parameter and prepend
`ctx` to the call. -/
def propagateForCall (prog : Program) (allowance : List Nat)
    (c : LocalCall) (ws : WalkState) : WalkState × List TextEdit :=
  let res := hasContextProviderInPath c.path c.call.pos
  let ws1 : WalkState :=
    { ws with ps := { ws.ps with reports := ws.ps.reports ++ res.1 } }
  match res.2 with
  | some expr => (ws1, [editToPrependExpr c.call expr])
  | none =>
    let rec2 := propagateThrough prog allowance (pathDecl c.path) ws1
    (rec2.1, rec2.2 ++ [editToPrependExpr c.call "ctx"])
termination_by (allowance.length, 1, 0)
decreasing_by
  apply Prod.Lex.right
  apply Prod.Lex.left
  omega

/-- The `for _, caller := range r.callers[...]` loop of
`propagateContextThrough`, threading the walk state left to right. -/
def propagateCalls (prog : Program) (allowance : List Nat)
    (cs : List LocalCall) (ws : WalkState) : WalkState × List TextEdit :=
  match cs with
  | [] => (ws, [])
  | c :: rest =>
    let r1 := propagateForCall prog allowance c ws
    let r2 := propagateCalls prog allowance rest r1.1
    (r2.1, r1.2 ++ r2.2)
termination_by (allowance.length, 2, cs.length)
decreasing_by
  · apply Prod.Lex.right
    apply Prod.Lex.left
    omega
  · apply Prod.Lex.right
    apply Prod.Lex.right
    simp

end

/-- An `analysis.Diagnostic` as the pass emits it: position range, message
(`"Plumb context"` for direct requests, `"Continue plumbing context"` for
continuations) and the suggested fix's text edits. -/
structure Diagnostic where
  pos : Nat
  endPos : Nat
  message : String
  edits : List TextEdit
deriving DecidableEq, Inhabited

/-- Go source, `rewriteTODO`: a fresh `seen` set; for the assignment form,
propagate through the enclosing declaration and delete the assignment up to
`Rparen + 1`; for the bare form, substitute a visible provider in place, or
propagate and substitute `ctx`. -/
def rewriteTODO (prog : Program) (todo : LocalCall) (st : PassState) :
    PassState × Diagnostic :=
  match todo.assign with
  | some a =>
    let r := propagateThrough prog (idList prog) (pathDecl todo.path) ⟨[], st⟩
    (r.1.ps,
     ⟨todo.call.pos, todo.call.endPos, "Plumb context",
      r.2 ++ [⟨a.pos, a.rhsRparen + 1, ""⟩]⟩)
  | none =>
    let res := hasContextProviderInPath todo.path todo.call.pos
    match res.2 with
    | some expr =>
      ({ st with reports := st.reports ++ res.1 },
       ⟨todo.call.pos, todo.call.endPos, "Plumb context",
        [⟨todo.call.pos, todo.call.endPos, expr⟩]⟩)
    | none =>
      let r :=
        propagateThrough prog (idList prog) (pathDecl todo.path)
          ⟨[], { st with reports := st.reports ++ res.1 }⟩
      (r.1.ps,
       ⟨todo.call.pos, todo.call.endPos, "Plumb context",
        r.2 ++ [⟨todo.call.pos, todo.call.endPos, "ctx"⟩]⟩)

/-- Go source, `rewriteTransitives`: a fresh `seen` set and one
`propagateContextForCall` for the continuation call. -/
def rewriteTransitives (prog : Program) (t : LocalCall) (st : PassState) :
    PassState × Diagnostic :=
  let r := propagateForCall prog (idList prog) t ⟨[], st⟩
  (r.1.ps, ⟨t.call.pos, t.call.endPos, "Continue plumbing context", r.2⟩)

/-- The `for _, call := range r.todos` loop of `buildDiagnostics`. -/
def rewriteTODOs (prog : Program) : List LocalCall → PassState → PassState × List Diagnostic
  | [], st => (st, [])
  | t :: ts, st =>
    let r1 := rewriteTODO prog t st
    let r2 := rewriteTODOs prog ts r1.1
    (r2.1, r1.2 :: r2.2)

/-- The `for _, transitive := range r.transitives` loop of
`buildDiagnostics`. -/
def rewriteTransitivesAll (prog : Program) :
    List LocalCall → PassState → PassState × List Diagnostic
  | [], st => (st, [])
  | t :: ts, st =>
    let r1 := rewriteTransitives prog t st
    let r2 := rewriteTransitivesAll prog ts r1.1
    (r2.1, r1.2 :: r2.2)

/-- The runner's initial diagnostic state (all maps empty). -/
def initialState : PassState := ⟨[], [], [], []⟩

/-- Go source, `buildDiagnostics`: rewrite every direct request, then every
continuation, threading the runner state. -/
def buildDiagnostics (prog : Program) : PassState × List Diagnostic :=
  let r1 := rewriteTODOs prog prog.todos initialState
  let r2 := rewriteTransitivesAll prog prog.transitives r1.1
  (r2.1, r1.2 ++ r2.2)

/-- All text edits of one compilation-unit pass, in emission order. -/
def passEdits (prog : Program) : List TextEdit :=
  ((buildDiagnostics prog).2.map Diagnostic.edits).flatten

/-! ## The call-graph walker (`walkAssignStmt` / `walkCallExpr`) -/

/-- What `walkCallExpr` / `walkAssignStmt` read about the object a call's
function identifier resolves to (`TypesInfo.ObjectOf`): whether it is a
`*types.Func`, its package path (`none` for a nil package), its name, the id
of its declaration (for keying the `callers` map), whether its package is the
package under analysis (`isLocal`), and whether it carries an imported
`NeedsContext` fact. -/
structure ObjInfo where
  isFunc : Bool
  pkgPath : Option String
  name : String
  declId : Nat
  localPkg : Bool
  hasFact : Bool
deriving Inhabited

/-- Go source, `isContextTODO`: the object is a `*types.Func` of package path
`"context"` named `"TODO"`. -/
def isContextTODOObj (o : ObjInfo) : Bool :=
  o.isFunc && o.pkgPath == some "context" && o.name == "TODO"

/-- The function position of a `*ast.CallExpr`: a plain identifier, a
selector (each with the object `ObjectOf` resolves for it, `none` when there
is no type information), or any other expression form. -/
inductive CallFun where
  | fIdent (obj : Option ObjInfo)
  | fSelector (obj : Option ObjInfo)
  | fOther
deriving Inhabited

/-- A call expression as the walker sees it: its function position, and the
positions `Pos()`, `End()`, `Lparen`, `Rparen`. -/
structure CallNode where
  fn : CallFun
  pos : Nat
  endPos : Nat
  lparen : Nat
  rparen : Nat
deriving Inhabited

/-- A left-hand side of an assignment: an identifier or anything else. -/
inductive LhsExpr where
  | ident (name : String)
  | nonIdent
deriving Inhabited

/-- A right-hand side of an assignment: a call expression or anything else
(sub-expressions of a non-call right-hand side are not modelled). -/
inductive RhsExpr where
  | callE (c : CallNode)
  | nonCall
deriving Inhabited

/-- An `*ast.AssignStmt` as the walker sees it. -/
structure AssignNode where
  lhs : List LhsExpr
  rhs : List RhsExpr
  pos : Nat
deriving Inhabited

/-- The `CallExprInfo` recorded for a `localCall` from a `CallNode`. -/
def callInfo (c : CallNode) : CallExprInfo := ⟨c.pos, c.endPos, c.lparen⟩

/-- Go source, `walkAssignStmt`: match `ctx := context.TODO()` or
`_ = context.TODO()` — exactly one left-hand side which is an identifier
named `ctx` or `_`, exactly one right-hand side which is a call whose
function is a selector resolving to `context.TODO`.  On a match the call is
recorded as a direct request carrying the assignment, and the walker does not
descend into the statement (the source returns `false`).  `stack` is the
inspector stack including the assignment itself. -/
def walkAssignStmt (stack : List PathNode) (a : AssignNode) : Option LocalCall :=
  match a.lhs, a.rhs with
  | [lhs0], [rhs0] =>
    match lhs0 with
    | .ident name =>
      if name == "ctx" || name == "_" then
        match rhs0 with
        | .callE c =>
          match c.fn with
          | .fSelector obj =>
            match obj with
            | some o =>
              if isContextTODOObj o then
                some ⟨stack, callInfo c, some ⟨a.pos, c.rparen⟩⟩
              else none
            | none => none
          | _ => none
        | .nonCall => none
      else none
    | .nonIdent => none
  | _, _ => none

/-- The classification `walkCallExpr` produces for one call: a direct request
(walking stops below it), or a possible `callers` entry (when the callee is
local) together with a possible continuation entry (when the callee carries a
`NeedsContext` fact) — the source records both independently. -/
inductive CallAction where
  | todoFound (lc : LocalCall)
  | record (callerEntry : Option (Nat × LocalCall)) (transitiveEntry : Option LocalCall)
deriving Inhabited

/-- Go source, `walkCallExpr`.  A function position that is neither an
identifier nor a selector, or one without type information, records
nothing (the source keeps walking); those two cases coincide here in
`record none none`. -/
def walkCallExpr (stack : List PathNode) (c : CallNode) : CallAction :=
  let obj : Option ObjInfo :=
    match c.fn with
    | .fIdent o => o
    | .fSelector o => o
    | .fOther => none
  match obj with
  | none => .record none none
  | some o =>
    if isContextTODOObj o then
      .todoFound ⟨stack, callInfo c, none⟩
    else
      .record
        (if o.localPkg then some (o.declId, ⟨stack, callInfo c, none⟩) else none)
        (if o.hasFact then some ⟨stack, callInfo c, none⟩ else none)

/-- The inspector's behaviour at an assignment statement: `walkAssignStmt`
first; if it matches the children are not visited, otherwise the walker
descends and `walkCallExpr` runs on each right-hand-side call with the
assignment now on the stack.  (Calls nested deeper inside the right-hand
sides are not modelled.)  Returns the direct requests, `callers` entries and
continuation entries contributed by the statement. -/
def classifyAssign (stack : List PathNode) (a : AssignNode) :
    List LocalCall × List (Nat × LocalCall) × List LocalCall :=
  match walkAssignStmt stack a with
  | some lc => ([lc], [], [])
  | none =>
    a.rhs.foldl
      (fun acc r =>
        match r with
        | .callE c =>
          match walkCallExpr (stack ++ [PathNode.assignStmt a.pos]) c with
          | .todoFound lc => (acc.1 ++ [lc], acc.2.1, acc.2.2)
          | .record ce te =>
            (acc.1, acc.2.1 ++ ce.toList, acc.2.2 ++ te.toList)
        | .nonCall => acc)
      ([], [], [])

/-! ## The report filter installed by `filterReports` -/

/-- A text edit as the filter sees it: just the two positions, `0` modelling
`token.NoPos` (invalid). -/
structure FixEdit where
  pos : Nat
  endPos : Nat
deriving DecidableEq, Inhabited

/-- A suggested fix as the filter sees it: its text edits. -/
structure SuggestedFix where
  edits : List FixEdit
deriving DecidableEq, Inhabited

/-- A diagnostic as the filter sees it: its position and suggested fixes. -/
structure FilterDiag where
  pos : Nat
  fixes : List SuggestedFix
deriving DecidableEq, Inhabited

/-- Go source, `filterReports`: the wrapped `Report` forwards the diagnostic
unless, for some suggested fix, some text edit, and some valid position among
the edit's `Pos`/`End`, the file name is under the module-cache prefix — and
the file name it tests is `Fset.Position(diag.Pos).Filename`, the file of the
*diagnostic's* position (the loop variable `pos` is not used in the test).
`fileOf` models `Fset.Position(·).Filename`.  Returns `true` when the
diagnostic is forwarded to the real reporter. -/
def filterReportsKeeps (fileOf : Nat → String) (moduleCache : String)
    (diag : FilterDiag) : Bool :=
  !(diag.fixes.any fun sf =>
      sf.edits.any fun te =>
        [te.pos, te.endPos].any fun p =>
          p != 0 && hasPrefixStr (fileOf diag.pos) moduleCache)

/-! ## Definitions modelled from the specification's words

These do not translate source code; each follows the quoted sentence of the
claim it is compared against. -/

/-- Modelled from the spec (claim C9): "the Emitter drops any Diagnostic
whose Edit Operations would touch a file under a configured external/
read-only path prefix" — the file tested is the one containing the *edit's*
own (valid) position. -/
def specDropsDiagnostic (fileOf : Nat → String) (moduleCache : String)
    (diag : FilterDiag) : Bool :=
  diag.fixes.any fun sf =>
    sf.edits.any fun te =>
      [te.pos, te.endPos].any fun p =>
        p != 0 && hasPrefixStr (fileOf p) moduleCache

/-- Modelled from the spec (claim C7): a zero-argument method named `Context`
returning `context.Context`. -/
def specHasZeroArgContextMethod : GoType → Bool
  | .pointer elem => specHasZeroArgContextMethod elem
  | .named _ _ methods =>
      methods.any fun m =>
        m.1 == "Context" && m.2.1 == 0 && m.2.2.length == 1 &&
          isContextContext (m.2.2.headD .basic)
  | .basic => false

/-- Modelled from the spec (claim C7): "a parameter or variable qualifies as a
context provider if and only if its static type is the context abstraction
itself, or its type exposes a zero-argument accessor method named Context
returning that abstraction". -/
def specQualifiesC7 (t : GoType) : Bool :=
  isContextContext t || specHasZeroArgContextMethod t

/-- The scopes the claim C6 search visits, innermost first: the scope owned by
each enclosing node, including non-function scopes (blocks), as "each
enclosing lexical scope". -/
def claimScopeChain : List PathNode → List (List ScopeEntry)
  | [] => []
  | node :: rest =>
    match node with
    | .assignStmt _ => claimScopeChain rest
    | .funcDeclNode d => d.scope :: claimScopeChain rest
    | .funcLitNode _ scope => scope :: claimScopeChain rest
    | .blockNode scope => scope :: claimScopeChain rest

/-- Modelled from the spec (claim C6): first-match-wins over (1) the formal
parameters of the innermost enclosing procedure or closure in declaration
order, then (2) the local variables of each enclosing lexical scope from
innermost to outermost, restricted to declaration positions strictly before
the query position.  The path here is given innermost first. -/
def specResolverClaimed (pathRev : List PathNode) (atPos : Nat) : Option String :=
  let innermostParams : Option String :=
    match pathRev.findSome? (fun n =>
      match n with
      | .funcDeclNode d => some (hasContextProviderParam d.params).2
      | .funcLitNode fields _ => some (hasContextProviderField fields).2
      | _ => none) with
    | some r => r
    | none => none
  match innermostParams with
  | some expr => some expr
  | none =>
    (claimScopeChain pathRev).findSome? (fun sc => hasContextProviderInScope sc atPos)

/-! ## Derived notions used by the statements -/

/-- The provider-qualification test the source applies everywhere: the type is
`context.Context` itself, or has the (not-necessarily-zero-argument) `Context`
accessor. -/
def qualifies (t : GoType) : Bool :=
  isContextContext t || typeHasContextMethod t

/-- The provider expression `hasContextProviderParam` produces for an unnamed
qualifying parameter at index `i`. -/
def synthProviderExpr (i : Nat) (p : Param) : String :=
  if isContextContext p.type then "unnamedParam" ++ toString i
  else "unnamedParam" ++ toString i ++ ".Context()"

/-- All provider expressions the parameter scan would yield, in scan order
(used to state the resolver's first-match-wins order). -/
def paramCandidates : Nat → List Param → List String
  | _, [] => []
  | i, p :: rest =>
    let paramName := if p.name == "" then "unnamedParam" ++ toString i else p.name
    if isContextContext p.type then paramName :: paramCandidates (i + 1) rest
    else if typeHasContextMethod p.type then
      (paramName ++ ".Context()") :: paramCandidates (i + 1) rest
    else paramCandidates (i + 1) rest

/-- All provider expressions the field scan would yield, in scan order. -/
def fieldCandidates : Nat → List GoField → List String
  | _, [] => []
  | i, f :: rest =>
    match f.type with
    | none => fieldCandidates (i + 1) rest
    | some t =>
      let fieldName := match f.names with
        | n :: _ => n
        | [] => "unnamedParam" ++ toString i
      if isContextContext t then fieldName :: fieldCandidates (i + 1) rest
      else if typeHasContextMethod t then
        (fieldName ++ ".Context()") :: fieldCandidates (i + 1) rest
      else fieldCandidates (i + 1) rest

/-- All provider expressions the scope scan would yield, in scan order. -/
def scopeCandidates (atPos : Nat) : List ScopeEntry → List String
  | [] => []
  | v :: rest =>
    if v.pos ≥ atPos then scopeCandidates atPos rest
    else if isContextContext v.type then v.name :: scopeCandidates atPos rest
    else if typeHasContextMethod v.type then
      (v.name ++ ".Context()") :: scopeCandidates atPos rest
    else scopeCandidates atPos rest

/-- The full candidate sequence of the source's resolver, for a path given
innermost first: at each enclosing procedure or closure, its formal
parameters (in declaration order) and then its function scope; nodes that are
neither — in particular blocks and their scopes — contribute nothing; an
assignment resets the query position for everything outside it. -/
def resolverCandidatesRev (atPos : Nat) : List PathNode → List String
  | [] => []
  | node :: rest =>
    match node with
    | .assignStmt pos => resolverCandidatesRev pos rest
    | .funcDeclNode d =>
      paramCandidates 0 d.params ++ scopeCandidates atPos d.scope ++
        resolverCandidatesRev atPos rest
    | .funcLitNode fields scope =>
      fieldCandidates 0 fields ++ scopeCandidates atPos scope ++
        resolverCandidatesRev atPos rest
    | .blockNode _ => resolverCandidatesRev atPos rest

/-- Start of the one non-insertion range a direct request's fix may contain:
the deleted assignment's start (assignment form) or the call's start (bare
form). -/
def todoRangeStart (t : LocalCall) : Nat :=
  match t.assign with
  | some a => a.pos
  | none => t.call.pos

/-- End of the one non-insertion range a direct request's fix may contain. -/
def todoRangeEnd (t : LocalCall) : Nat :=
  match t.assign with
  | some a => a.rhsRparen + 1
  | none => t.call.endPos

/-- Two half-open edit ranges intersect. -/
def editsOverlap (e1 e2 : TextEdit) : Prop :=
  max e1.pos e2.pos < min e1.endPos e2.endPos

/-- The request ranges of two direct requests are disjoint. -/
def todosDisjoint (t1 t2 : LocalCall) : Prop :=
  min (todoRangeEnd t1) (todoRangeEnd t2) ≤ max (todoRangeStart t1) (todoRangeStart t2)

instance (e1 e2 : TextEdit) : Decidable (editsOverlap e1 e2) := by
  unfold editsOverlap
  infer_instance

instance (t1 t2 : LocalCall) : Decidable (todosDisjoint t1 t2) := by
  unfold todosDisjoint
  infer_instance

/-- How many of the edits are the context-parameter injection for `d`. -/
def countInj (es : List TextEdit) (d : FuncDecl) : Nat :=
  es.countP (fun e => decide (e = editToPrependCtxParam d))

/-- `1` when `i` is in `after` but not in `before` (an id freshly added to the
`paramAdded` guard), else `0`. -/
def freshInd (before after : List Nat) (i : Nat) : Nat :=
  if i ∈ after ∧ i ∉ before then 1 else 0

/-- Well-formedness of a recorded call, reflecting how `buildCallGraph`
produces them from a real syntax tree: the enclosing declaration on its path
(if any) is one of the package's declarations, and the call's `Lparen` is a
different token from every declaration's parameter-list opening
parenthesis. -/
def callOK (prog : Program) (c : LocalCall) : Prop :=
  (∀ d ∈ (pathDecl c.path).toList, d ∈ prog.decls) ∧
  (∀ d ∈ prog.decls, c.call.lparen ≠ d.paramsOpening)

/-- Well-formedness of the call-graph builder's output on a real syntax tree:
distinct declarations have distinct parameter-list opening positions, a
body's opening brace is a different token from any parameter-list opening
parenthesis, every recorded call is well formed, and every request's call
range is nonempty. -/
def progWF (prog : Program) : Prop :=
  (∀ d1 ∈ prog.decls, ∀ d2 ∈ prog.decls, d1.paramsOpening = d2.paramsOpening → d1.id = d2.id) ∧
  (∀ d1 ∈ prog.decls, ∀ d2 ∈ prog.decls, d1.lbrace ≠ d2.paramsOpening) ∧
  (∀ kv ∈ prog.callersMap, ∀ c ∈ kv.2, callOK prog c) ∧
  (∀ c ∈ prog.todos, callOK prog c) ∧
  (∀ c ∈ prog.transitives, callOK prog c) ∧
  (∀ t ∈ prog.todos, t.call.pos < t.call.endPos)

/-! ## Concrete example programs used by counterexamples and witnesses -/

/-- C1's procedure: one unnamed parameter of type `context.Context`. -/
def fEx1 : FuncDecl :=
  ⟨1, "f", "p", "a.go", false, false, [⟨"", 30, contextContext⟩], [], 100, 90⟩

/-- C1's request: a bare `context.TODO()` call inside `fEx1`. -/
def todoEx1 : LocalCall := ⟨[.funcDeclNode fEx1], ⟨40, 55, 41⟩, none⟩

/-- C1's compilation unit. -/
def progEx1 : Program := ⟨[fEx1], [], [todoEx1], [], [⟨"a.go", true, none, none⟩]⟩

/-- C2's procedure: no parameters, but a local variable `myctx` of type
`context.Context` declared at position 5 in the function scope. -/
def fEx2 : FuncDecl :=
  ⟨2, "f", "p", "a.go", false, false, [], [⟨"myctx", 5, contextContext⟩], 100, 90⟩

/-- C2's request, in assignment form `ctx := context.TODO()` at position 20,
after `myctx` is in scope. -/
def todoEx2 : LocalCall :=
  ⟨[.funcDeclNode fEx2, .assignStmt 20], ⟨26, 36, 33⟩, some ⟨20, 35⟩⟩

/-- C2's compilation unit. -/
def progEx2 : Program := ⟨[fEx2], [], [todoEx2], [], [⟨"a.go", true, none, none⟩]⟩

/-- C2's witness request: the same procedure `fEx2`, but with the request in
bare-call form at position 26, where `myctx` is visible. -/
def todoEx2b : LocalCall := ⟨[.funcDeclNode fEx2], ⟨26, 36, 33⟩, none⟩

/-- C3's procedure: a parameter named `ctx` whose type is not
`context.Context`. -/
def fEx3 : FuncDecl :=
  ⟨3, "f", "p", "a.go", false, false, [⟨"ctx", 30, .basic⟩], [], 100, 90⟩

/-- C3's request: a bare `context.TODO()` call inside `fEx3`. -/
def todoEx3 : LocalCall := ⟨[.funcDeclNode fEx3], ⟨40, 55, 41⟩, none⟩

/-- C3's compilation unit. -/
def progEx3 : Program := ⟨[fEx3], [], [todoEx3], [], [⟨"a.go", true, none, none⟩]⟩

/-- C4's procedure: `TestFoo` in a `_test.go` file — an entry point — which
also declares a wrongly-typed `ctx` parameter. -/
def fEx4 : FuncDecl :=
  ⟨4, "TestFoo", "p", "foo_test.go", false, false,
   [⟨"ctx", 30, .basic⟩], [⟨"ctx", 30, .basic⟩], 100, 90⟩

/-- C4's request: a bare `context.TODO()` call inside `fEx4`. -/
def todoEx4 : LocalCall := ⟨[.funcDeclNode fEx4], ⟨40, 55, 41⟩, none⟩

/-- C4's compilation unit. -/
def progEx4 : Program := ⟨[fEx4], [], [todoEx4], [], [⟨"foo_test.go", true, none, none⟩]⟩

/-- C4's witness procedure: `main` in package `main`, with no parameters. -/
def fEx4m : FuncDecl := ⟨5, "main", "main", "main.go", false, false, [], [], 100, 90⟩

/-- C4's witness request: a bare `context.TODO()` call inside `main`. -/
def todoEx4m : LocalCall := ⟨[.funcDeclNode fEx4m], ⟨40, 55, 41⟩, none⟩

/-- C4's witness compilation unit. -/
def progEx4m : Program := ⟨[fEx4m], [], [todoEx4m], [], [⟨"main.go", true, none, none⟩]⟩

/-- C5's first procedure of a two-cycle. -/
def fEx5a : FuncDecl := ⟨10, "a", "p", "a.go", false, false, [], [], 160, 150⟩

/-- C5's second procedure of a two-cycle. -/
def fEx5b : FuncDecl := ⟨11, "b", "p", "a.go", false, false, [], [], 260, 250⟩

/-- C5: the call of `a` from inside `b`. -/
def callEx5ba : LocalCall := ⟨[.funcDeclNode fEx5b], ⟨300, 310, 301⟩, none⟩

/-- C5: the call of `b` from inside `a`. -/
def callEx5ab : LocalCall := ⟨[.funcDeclNode fEx5a], ⟨220, 230, 221⟩, none⟩

/-- C5's request: a bare `context.TODO()` inside `a`. -/
def todoEx5 : LocalCall := ⟨[.funcDeclNode fEx5a], ⟨200, 215, 201⟩, none⟩

/-- C5's compilation unit: `a` and `b` call each other and `a` holds a direct
request, so the propagation walk reaches a cycle. -/
def progEx5 : Program :=
  ⟨[fEx5a, fEx5b], [(10, [callEx5ba]), (11, [callEx5ab])], [todoEx5], [],
   [⟨"a.go", true, none, none⟩]⟩

/-- C6's procedure: no parameters and an empty function scope. -/
def fEx6 : FuncDecl := ⟨6, "f", "p", "a.go", false, false, [], [], 100, 90⟩

/-- C6's path: the request sits inside a block (e.g. an `if` body) whose own
lexical scope declares `c0 : context.Context` at position 5, inside `fEx6`. -/
def pathEx6 : List PathNode :=
  [.funcDeclNode fEx6, .blockNode [⟨"c0", 5, contextContext⟩]]

/-- C7's failing type: a named type whose `Context` method takes one
parameter and returns `context.Context`. -/
def tEx7 : GoType := .named "p" "T" [("Context", 1, [contextContext])]

/-- C8's second request used by the witness (disjoint from `todoEx5`). -/
def todoEx8b : LocalCall := ⟨[.funcDeclNode fEx5a], ⟨216, 219, 217⟩, none⟩

/-- C8's witness compilation unit: the C5 cycle with two disjoint requests. -/
def progEx8 : Program :=
  ⟨[fEx5a, fEx5b], [(10, [callEx5ba]), (11, [callEx5ab])], [todoEx5, todoEx8b], [],
   [⟨"a.go", true, none, none⟩]⟩

/-- C9's file table: position 1 lies in an ordinary source file, every other
position lies in a file under the module cache. -/
def fileOfEx9 : Nat → String :=
  fun p => if p == 1 then "/src/app/main.go" else "/go/pkg/mod/dep/dep.go"

/-- C9's diagnostic: positioned in the ordinary file, with one suggested fix
whose single edit has both positions in the module-cache file. -/
def diagEx9 : FilterDiag := ⟨1, [⟨[⟨2, 3⟩]⟩]⟩

/-- C10: the object `context.TODO` resolves to. -/
def objEx10 : ObjInfo := ⟨true, some "context", "TODO", 0, false, false⟩

/-- C10: the `context.TODO()` call on the right-hand side. -/
def callEx10 : CallNode := ⟨.fSelector (some objEx10), 26, 40, 33, 39⟩

/-- C10: the assignment `myctx := context.TODO()` — a left-hand identifier
that is neither `ctx` nor `_`. -/
def assignEx10 : AssignNode := ⟨[.ident "myctx"], [.callE callEx10], 20⟩

/-! ## Helper lemmas -/

theorem contains_eq_true_of_mem {l : List Nat} {a : Nat} (h : a ∈ l) :
    l.contains a = true :=
  List.elem_iff.mpr h

theorem contains_eq_false_of_not_mem {l : List Nat} {a : Nat} (h : a ∉ l) :
    l.contains a = false := by
  cases hc : l.contains a with
  | false => rfl
  | true => exact absurd (List.elem_iff.mp hc) h

/-- The parameter scan on `pre ++ p :: post`, where `p` is the first
qualifying parameter and is unnamed: it emits exactly the naming report for
`p` and still returns the synthetic provider expression. -/
theorem hasContextProviderParamAux_unnamed (i : Nat) (pre : List Param)
    (p : Param) (post : List Param)
    (hname : p.name = "") (hq : qualifies p.type = true)
    (hpre : ∀ q ∈ pre, qualifies q.type = false) :
    hasContextProviderParamAux i (pre ++ p :: post) =
      ([Report.naming p.pos], some (synthProviderExpr (i + pre.length) p)) := by
  induction pre generalizing i with
  | nil =>
    by_cases hcc : isContextContext p.type
    · simp [hasContextProviderParamAux, hname, hcc, synthProviderExpr]
    · have hm : typeHasContextMethod p.type = true := by
        simp [qualifies, hcc] at hq
        exact hq
      simp [hasContextProviderParamAux, hname, hcc, hm, synthProviderExpr]
  | cons q qs ih =>
    have hq0 : qualifies q.type = false := hpre q (by simp)
    have hcc : isContextContext q.type = false := by
      simp [qualifies] at hq0
      exact hq0.1
    have hm : typeHasContextMethod q.type = false := by
      simp [qualifies] at hq0
      exact hq0.2
    have ihq := ih (i + 1) (fun r hr => hpre r (by simp [hr]))
    have harith : i + 1 + qs.length = i + (qs.length + 1) := by omega
    simp [hasContextProviderParamAux, hcc, hm, ihq, harith]

/-- Every edit `editToImportContext` produces is a zero-width insertion whose
text is one of the two import strings. -/
theorem editToImportContext_edits (st : PassState) (prog : Program) (fn : String) :
    ∀ e ∈ (editToImportContext st prog fn).2,
      e.pos = e.endPos ∧
        (e.newText = "\"context\";" ∨ e.newText = "import \"context\";") := by
  unfold editToImportContext
  repeat' split
  all_goals simp

/-- Every edit an early-return branch of ensure-context produces is a
zero-width insertion. -/
theorem earlyBranch_edits_zw (prog : Program) (d : FuncDecl) (st : PassState) :
    ∀ es, (earlyBranch prog d st).2 = some es → ∀ e ∈ es, e.pos = e.endPos := by
  intro es hes e he
  unfold earlyBranch at hes
  split at hes
  · split at hes <;> simp_all
  · split at hes
    · simp only [Option.some.injEq] at hes
      subst hes
      rcases List.mem_cons.mp he with h1 | h1
      · subst h1; rfl
      · exact (editToImportContext_edits _ prog d.fileName e h1).1
    · simp only [] at hes
      cases hres : (hasContextProviderParam d.params).2 with
      | some expr =>
        simp only [hres, Option.some.injEq] at hes
        subst hes
        rcases List.mem_cons.mp he with h1 | h1
        · subst h1; rfl
        · exact (editToImportContext_edits _ prog d.fileName e h1).1
      | none => simp [hres] at hes

/-- Every edit the propagation engine produces is a zero-width insertion
(parameter injections, argument prepends, local declarations and imports all
insert at a point; only the request-site substitution and the assignment
deletion, which live in `rewriteTODO`, have nonempty ranges). -/
theorem propagate_edits_zw (prog : Program) : ∀ n : Nat,
    (∀ allowance (od : Option FuncDecl) (ws : WalkState), allowance.length ≤ n →
      ∀ e ∈ (propagateThrough prog allowance od ws).2, e.pos = e.endPos) ∧
    (∀ allowance (c : LocalCall) (ws : WalkState), allowance.length ≤ n →
      ∀ e ∈ (propagateForCall prog allowance c ws).2, e.pos = e.endPos) ∧
    (∀ allowance (cs : List LocalCall) (ws : WalkState), allowance.length ≤ n →
      ∀ e ∈ (propagateCalls prog allowance cs ws).2, e.pos = e.endPos) := by
  intro n
  induction n using Nat.strong_induction_on with
  | _ n ih =>
    have hthrough : ∀ allowance (od : Option FuncDecl) (ws : WalkState),
        allowance.length ≤ n →
        ∀ e ∈ (propagateThrough prog allowance od ws).2, e.pos = e.endPos := by
      intro allowance od ws hlen e he
      cases od with
      | none => simp [propagateThrough] at he
      | some d =>
        rw [propagateThrough] at he
        by_cases hseen : d.id ∈ ws.seen
        · simp [hseen] at he
        by_cases hmem : d.id ∈ allowance
        case neg => simp [hseen, hmem] at he
        by_cases hpa : d.id ∈ ws.ps.paramAdded
        · simp [hseen, hmem, hpa] at he
        cases heb : (earlyBranch prog d
            { ws.ps with paramAdded := d.id :: ws.ps.paramAdded }).2 with
        | some edits =>
          simp [hseen, hmem, hpa, heb] at he
          exact earlyBranch_edits_zw prog d _ _ heb e he
        | none =>
          simp [hseen, hmem, hpa, heb] at he
          rcases he with h1 | h1 | h1
          · subst h1; rfl
          · exact (editToImportContext_edits _ prog d.fileName e h1).1
          · have hlt : (allowance.erase d.id).length < n := by
              have h1' := List.length_erase_of_mem hmem
              have h2' := List.length_pos_of_mem hmem
              omega
            exact (ih _ hlt).2.2 _ _ _ (le_refl _) e h1
    have hforCall : ∀ allowance (c : LocalCall) (ws : WalkState),
        allowance.length ≤ n →
        ∀ e ∈ (propagateForCall prog allowance c ws).2, e.pos = e.endPos := by
      intro allowance c ws hlen e he
      rw [propagateForCall] at he
      split at he
      · simp only [List.mem_singleton] at he
        subst he; rfl
      · simp only [List.mem_append, List.mem_singleton] at he
        rcases he with h1 | h1
        · exact hthrough _ _ _ hlen e h1
        · subst h1; rfl
    have hcalls : ∀ allowance (cs : List LocalCall) (ws : WalkState),
        allowance.length ≤ n →
        ∀ e ∈ (propagateCalls prog allowance cs ws).2, e.pos = e.endPos := by
      intro allowance cs
      induction cs with
      | nil => intro ws hlen e he; simp [propagateCalls] at he
      | cons c rest ihc =>
        intro ws hlen e he
        rw [propagateCalls] at he
        simp only [List.mem_append] at he
        rcases he with h1 | h1
        · exact hforCall _ _ _ hlen e h1
        · exact ihc _ hlen e h1
    exact ⟨hthrough, hforCall, hcalls⟩

/-- Instance of `propagate_edits_zw` for `propagateThrough`. -/
theorem propagateThrough_zw (prog : Program) (allowance : List Nat)
    (od : Option FuncDecl) (ws : WalkState) :
    ∀ e ∈ (propagateThrough prog allowance od ws).2, e.pos = e.endPos :=
  (propagate_edits_zw prog allowance.length).1 allowance od ws (le_refl _)

/-- Instance of `propagate_edits_zw` for `propagateForCall`. -/
theorem propagateForCall_zw (prog : Program) (allowance : List Nat)
    (c : LocalCall) (ws : WalkState) :
    ∀ e ∈ (propagateForCall prog allowance c ws).2, e.pos = e.endPos :=
  (propagate_edits_zw prog allowance.length).2.1 allowance c ws (le_refl _)

/-- The fix of one direct request is a list of zero-width insertions followed
by exactly one edit whose range is the request's own range (the substitution
of the bare call, or the deletion of the matched assignment). -/
theorem rewriteTODO_edits_shape (prog : Program) (t : LocalCall) (st : PassState) :
    ∃ zws last, (rewriteTODO prog t st).2.edits = zws ++ [last] ∧
      (∀ e ∈ zws, e.pos = e.endPos) ∧
      last.pos = todoRangeStart t ∧ last.endPos = todoRangeEnd t := by
  cases hassign : t.assign with
  | some a =>
    refine ⟨(propagateThrough prog (idList prog) (pathDecl t.path) ⟨[], st⟩).2,
      ⟨a.pos, a.rhsRparen + 1, ""⟩, ?_, ?_, ?_, ?_⟩
    · simp [rewriteTODO, hassign]
    · exact propagateThrough_zw prog _ _ _
    · simp [todoRangeStart, hassign]
    · simp [todoRangeEnd, hassign]
  | none =>
    cases hres : (hasContextProviderInPath t.path t.call.pos).2 with
    | some expr =>
      refine ⟨[], ⟨t.call.pos, t.call.endPos, expr⟩, ?_, by simp,
        by simp [todoRangeStart, hassign], by simp [todoRangeEnd, hassign]⟩
      simp [rewriteTODO, hassign, hres]
    | none =>
      refine ⟨(propagateThrough prog (idList prog) (pathDecl t.path)
          ⟨[], { st with
            reports := st.reports ++ (hasContextProviderInPath t.path t.call.pos).1 }⟩).2,
        ⟨t.call.pos, t.call.endPos, "ctx"⟩, ?_, ?_, ?_, ?_⟩
      · simp [rewriteTODO, hassign, hres]
      · exact propagateThrough_zw prog _ _ _
      · simp [todoRangeStart, hassign]
      · simp [todoRangeEnd, hassign]

/-- Every edit of a continuation diagnostic is a zero-width insertion. -/
theorem rewriteTransitives_edits_zw (prog : Program) (t : LocalCall) (st : PassState) :
    ∀ e ∈ (rewriteTransitives prog t st).2.edits, e.pos = e.endPos := by
  intro e he
  simp only [rewriteTransitives] at he
  exact propagateForCall_zw prog _ _ _ e he

/-- `editToImportContext` never touches the `paramAdded` guard. -/
theorem editToImportContext_paramAdded (st : PassState) (prog : Program) (fn : String) :
    (editToImportContext st prog fn).1.paramAdded = st.paramAdded := by
  unfold editToImportContext
  repeat' split
  all_goals simp

/-- `earlyBranch` never touches the `paramAdded` guard. -/
theorem earlyBranch_paramAdded (prog : Program) (d : FuncDecl) (st : PassState) :
    (earlyBranch prog d st).1.paramAdded = st.paramAdded := by
  unfold earlyBranch
  split
  · split <;> simp
  · split
    · simp [editToImportContext_paramAdded]
    · simp only []
      cases hres : (hasContextProviderParam d.params).2 with
      | some expr => simp [hres, editToImportContext_paramAdded]
      | none => simp [hres]

/-- The propagation engine only ever prepends to the `paramAdded` guard: every
id present before a call is still present after it. -/
theorem propagate_paramAdded_mono (prog : Program) : ∀ n : Nat,
    (∀ allowance (od : Option FuncDecl) (ws : WalkState), allowance.length ≤ n →
      ∀ i ∈ ws.ps.paramAdded,
        i ∈ (propagateThrough prog allowance od ws).1.ps.paramAdded) ∧
    (∀ allowance (c : LocalCall) (ws : WalkState), allowance.length ≤ n →
      ∀ i ∈ ws.ps.paramAdded,
        i ∈ (propagateForCall prog allowance c ws).1.ps.paramAdded) ∧
    (∀ allowance (cs : List LocalCall) (ws : WalkState), allowance.length ≤ n →
      ∀ i ∈ ws.ps.paramAdded,
        i ∈ (propagateCalls prog allowance cs ws).1.ps.paramAdded) := by
  intro n
  induction n using Nat.strong_induction_on with
  | _ n ih =>
    have hthrough : ∀ allowance (od : Option FuncDecl) (ws : WalkState),
        allowance.length ≤ n →
        ∀ i ∈ ws.ps.paramAdded,
          i ∈ (propagateThrough prog allowance od ws).1.ps.paramAdded := by
      intro allowance od ws hlen i hi
      cases od with
      | none => simpa [propagateThrough] using hi
      | some d =>
        rw [propagateThrough]
        by_cases hseen : d.id ∈ ws.seen
        · simpa [hseen] using hi
        by_cases hmem : d.id ∈ allowance
        case neg => simpa [hseen, hmem] using hi
        by_cases hpa : d.id ∈ ws.ps.paramAdded
        · simpa [hseen, hmem, hpa] using hi
        cases heb : (earlyBranch prog d
            { ws.ps with paramAdded := d.id :: ws.ps.paramAdded }).2 with
        | some edits =>
          simp [hseen, hmem, hpa, heb, earlyBranch_paramAdded, hi]
        | none =>
          have hlt : (allowance.erase d.id).length < n := by
            have h1' := List.length_erase_of_mem hmem
            have h2' := List.length_pos_of_mem hmem
            omega
          have hstep := (ih _ hlt).2.2 (allowance.erase d.id)
            (callersOf prog d.id)
          simp [hseen, hmem, hpa, heb]
          refine hstep _ (le_refl _) i ?_
          simp only [editToImportContext_paramAdded]
          split <;> simp [earlyBranch_paramAdded, hi]
    have hforCall : ∀ allowance (c : LocalCall) (ws : WalkState),
        allowance.length ≤ n →
        ∀ i ∈ ws.ps.paramAdded,
          i ∈ (propagateForCall prog allowance c ws).1.ps.paramAdded := by
      intro allowance c ws hlen i hi
      rw [propagateForCall]
      cases hres : (hasContextProviderInPath c.path c.call.pos).2 with
      | some expr => simpa [hres] using hi
      | none =>
        simp only [hres]
        exact hthrough _ _ _ hlen i hi
    have hcalls : ∀ allowance (cs : List LocalCall) (ws : WalkState),
        allowance.length ≤ n →
        ∀ i ∈ ws.ps.paramAdded,
          i ∈ (propagateCalls prog allowance cs ws).1.ps.paramAdded := by
      intro allowance cs
      induction cs with
      | nil => intro ws hlen i hi; simpa [propagateCalls] using hi
      | cons c rest ihc =>
        intro ws hlen i hi
        rw [propagateCalls]
        exact ihc _ hlen i (hforCall _ _ _ hlen i hi)
    exact ⟨hthrough, hforCall, hcalls⟩

theorem countInj_nil (d : FuncDecl) : countInj [] d = 0 := rfl

theorem countInj_cons (x : TextEdit) (l : List TextEdit) (d : FuncDecl) :
    countInj (x :: l) d =
      countInj l d + (if x = editToPrependCtxParam d then 1 else 0) := by
  simp [countInj, List.countP_cons]

theorem countInj_append (l1 l2 : List TextEdit) (d : FuncDecl) :
    countInj (l1 ++ l2) d = countInj l1 d + countInj l2 d := by
  simp [countInj, List.countP_append]

/-- Import edits are never the parameter-injection edit (their replacement
texts differ). -/
theorem countInj_importEdits (st : PassState) (prog : Program) (fn : String)
    (d : FuncDecl) : countInj (editToImportContext st prog fn).2 d = 0 := by
  apply List.countP_eq_zero.mpr
  intro e he
  rcases editToImportContext_edits st prog fn e he with ⟨_, h1 | h1⟩ <;>
  · simp only [decide_eq_true_eq]
    intro hc
    rw [hc] at h1
    simp [editToPrependCtxParam] at h1

/-- `1` exactly when `i` entered the guard between `before` and `after`. -/
theorem freshInd_step (a b c' : List Nat) (i : Nat)
    (hab : ∀ x ∈ a, x ∈ b) (hbc : ∀ x ∈ b, x ∈ c') (n1 n2 : Nat)
    (h1 : n1 ≤ freshInd a b i) (h2 : n2 ≤ freshInd b c' i) :
    n1 + n2 ≤ freshInd a c' i := by
  by_cases ha : i ∈ a
  · have hb := hab i ha
    simp [freshInd, ha, hb] at h1 h2 ⊢
    omega
  · by_cases hb : i ∈ b
    · have hc := hbc i hb
      simp [freshInd, ha, hb, hc] at h1 h2 ⊢
      omega
    · by_cases hc : i ∈ c'
      · simp [freshInd, ha, hb, hc] at h1 h2 ⊢
        omega
      · simp [freshInd, ha, hb, hc] at h1 h2 ⊢
        omega

/-- Shrinking the `before` set can only increase the fresh indicator. -/
theorem freshInd_mono_before (a a' b : List Nat) (i : Nat)
    (h : ∀ x ∈ a, x ∈ a') : freshInd a' b i ≤ freshInd a b i := by
  by_cases ha : i ∈ a
  · simp [freshInd, ha, h i ha]
  · by_cases ha' : i ∈ a' <;> by_cases hb : i ∈ b <;> simp [freshInd, ha, ha', hb]

theorem freshInd_le_one (a b : List Nat) (i : Nat) : freshInd a b i ≤ 1 := by
  unfold freshInd
  split <;> omega

/-- The fresh indicator is `1` when the memberships say so. -/
theorem freshInd_eq_one (a b : List Nat) (i : Nat) (h1 : i ∉ a) (h2 : i ∈ b) :
    freshInd a b i = 1 := by
  simp [freshInd, h1, h2]

/-- An early-return branch never emits the parameter-injection edit of any
declaration (under the well-formedness facts that the body brace of the
processed declaration differs from every declaration's parameter-list
opening). -/
theorem earlyBranch_countInj (prog : Program) (d' d : FuncDecl)
    (hbr : d'.lbrace ≠ d.paramsOpening) (st : PassState) :
    ∀ es, (earlyBranch prog d' st).2 = some es → countInj es d = 0 := by
  intro es hes
  unfold earlyBranch at hes
  split at hes
  · split at hes <;> (simp only [Option.some.injEq] at hes; subst hes; rfl)
  · split at hes
    · simp only [Option.some.injEq] at hes
      subst hes
      rw [countInj_cons, countInj_importEdits]
      have : (⟨d'.lbrace + 1, d'.lbrace + 1,
          "ctx := context.Background();"⟩ : TextEdit) ≠
          editToPrependCtxParam d := by
        simp only [editToPrependCtxParam, ne_eq, TextEdit.mk.injEq]
        intro h
        exact hbr (by omega)
      simp [editToAddContextVarDecl, this]
    · simp only [] at hes
      cases hres : (hasContextProviderParam d'.params).2 with
      | some expr =>
        simp only [hres, Option.some.injEq] at hes
        subst hes
        rw [countInj_cons, countInj_importEdits]
        have : editToAddContextVarDecl d' expr ≠ editToPrependCtxParam d := by
          simp only [editToAddContextVarDecl, editToPrependCtxParam, ne_eq,
            TextEdit.mk.injEq]
          intro h
          exact hbr (by omega)
        simp [this]
      | none => simp [hres] at hes

/-- Every entry of `callersOf` comes from the callers map. -/
theorem callersOf_subset (prog : Program) (id : Nat) :
    ∀ c ∈ callersOf prog id, ∃ kv ∈ prog.callersMap, c ∈ kv.2 := by
  intro c hc
  unfold callersOf at hc
  split at hc
  · next kv hkv => exact ⟨kv, List.mem_of_find?_eq_some hkv, hc⟩
  · simp at hc

/-- The central counting invariant: under program well-formedness, a
propagation walk emits the parameter-injection edit of a declaration `d` at
most once, and only when `d.id` freshly enters the `paramAdded` guard during
that walk. -/
theorem propagate_countInj_master (prog : Program) (hwf : progWF prog) : ∀ n : Nat,
    (∀ allowance (od : Option FuncDecl) (ws : WalkState), allowance.length ≤ n →
      (∀ x ∈ od.toList, x ∈ prog.decls) →
      ∀ d ∈ prog.decls,
        countInj (propagateThrough prog allowance od ws).2 d ≤
          freshInd ws.ps.paramAdded
            (propagateThrough prog allowance od ws).1.ps.paramAdded d.id) ∧
    (∀ allowance (c : LocalCall) (ws : WalkState), allowance.length ≤ n →
      callOK prog c →
      ∀ d ∈ prog.decls,
        countInj (propagateForCall prog allowance c ws).2 d ≤
          freshInd ws.ps.paramAdded
            (propagateForCall prog allowance c ws).1.ps.paramAdded d.id) ∧
    (∀ allowance (cs : List LocalCall) (ws : WalkState), allowance.length ≤ n →
      (∀ c ∈ cs, callOK prog c) →
      ∀ d ∈ prog.decls,
        countInj (propagateCalls prog allowance cs ws).2 d ≤
          freshInd ws.ps.paramAdded
            (propagateCalls prog allowance cs ws).1.ps.paramAdded d.id) := by
  intro n
  induction n using Nat.strong_induction_on with
  | _ n ih =>
    have hthrough : ∀ allowance (od : Option FuncDecl) (ws : WalkState),
        allowance.length ≤ n → (∀ x ∈ od.toList, x ∈ prog.decls) →
        ∀ d ∈ prog.decls,
          countInj (propagateThrough prog allowance od ws).2 d ≤
            freshInd ws.ps.paramAdded
              (propagateThrough prog allowance od ws).1.ps.paramAdded d.id := by
      intro allowance od ws hlen hod d hd
      cases od with
      | none => simp [propagateThrough, countInj_nil]
      | some d' =>
        have hd' : d' ∈ prog.decls := hod d' (by simp)
        rw [propagateThrough]
        by_cases hseen : d'.id ∈ ws.seen
        · simp [hseen, countInj_nil]
        by_cases hmem : d'.id ∈ allowance
        case neg => simp [hseen, hmem, countInj_nil]
        by_cases hpa : d'.id ∈ ws.ps.paramAdded
        · simp [hseen, hmem, hpa, countInj_nil]
        cases heb : (earlyBranch prog d'
            { ws.ps with paramAdded := d'.id :: ws.ps.paramAdded }).2 with
        | some edits =>
          simp only [hseen, hmem, hpa, heb]
          simp [hseen, hmem, hpa, heb,
            earlyBranch_countInj prog d' d (hwf.2.1 d' hd' d hd) _ edits heb]
        | none =>
          have hlt : (allowance.erase d'.id).length < n := by
            have h1' := List.length_erase_of_mem hmem
            have h2' := List.length_pos_of_mem hmem
            omega
          have hcallsOK : ∀ c ∈ callersOf prog d'.id, callOK prog c := by
            intro c hc
            obtain ⟨kv, hkv, hckv⟩ := callersOf_subset prog d'.id c hc
            exact hwf.2.2.1 kv hkv c hckv
          have key : ∀ (E : List TextEdit) (W : WalkState),
              countInj E d = 0 →
              W.ps.paramAdded = d'.id :: ws.ps.paramAdded →
              countInj (editToPrependCtxParam d' :: (E ++
                  (propagateCalls prog (allowance.erase d'.id)
                    (callersOf prog d'.id) W).2)) d ≤
                freshInd ws.ps.paramAdded
                  (propagateCalls prog (allowance.erase d'.id)
                    (callersOf prog d'.id) W).1.ps.paramAdded d.id := by
            intro E W hE hW
            rw [countInj_cons, countInj_append, hE]
            have hcount := (ih _ hlt).2.2 (allowance.erase d'.id)
              (callersOf prog d'.id) W (le_refl _) hcallsOK d hd
            have hmono := (propagate_paramAdded_mono prog
              (allowance.erase d'.id).length).2.2 (allowance.erase d'.id)
              (callersOf prog d'.id) W (le_refl _)
            rw [hW] at hcount
            by_cases heq : editToPrependCtxParam d' = editToPrependCtxParam d
            · have hopen : d'.paramsOpening = d.paramsOpening := by
                simp only [editToPrependCtxParam, TextEdit.mk.injEq] at heq
                omega
              have hidq : d'.id = d.id := hwf.1 d' hd' d hd hopen
              have hinW : d.id ∈ W.ps.paramAdded := by
                rw [hW, ← hidq]
                exact List.mem_cons_self _ _
              have hfin := hmono d.id hinW
              have hmemb : d.id ∈ d'.id :: ws.ps.paramAdded := by
                rw [← hidq]
                exact List.mem_cons_self _ _
              have hz : freshInd (d'.id :: ws.ps.paramAdded)
                  (propagateCalls prog (allowance.erase d'.id)
                    (callersOf prog d'.id) W).1.ps.paramAdded d.id = 0 := by
                simp [freshInd, hmemb]
              have hfr := freshInd_eq_one ws.ps.paramAdded
                (propagateCalls prog (allowance.erase d'.id)
                  (callersOf prog d'.id) W).1.ps.paramAdded d.id
                (by rw [← hidq]; exact hpa) hfin
              rw [heq, hfr]
              rw [hz] at hcount
              have h1 : (if editToPrependCtxParam d = editToPrependCtxParam d
                  then 1 else 0) = 1 := if_pos rfl
              rw [h1]
              omega
            · simp only [heq, if_false]
              have hmb := freshInd_mono_before ws.ps.paramAdded
                (d'.id :: ws.ps.paramAdded)
                (propagateCalls prog (allowance.erase d'.id)
                  (callersOf prog d'.id) W).1.ps.paramAdded d.id
                (fun x hx => by simp [hx])
              omega
          simp [hseen, hmem, hpa, heb]
          apply key
          · exact countInj_importEdits _ prog _ d
          · rw [editToImportContext_paramAdded]
            split <;> simp [earlyBranch_paramAdded]
    have hforCall : ∀ allowance (c : LocalCall) (ws : WalkState),
        allowance.length ≤ n → callOK prog c →
        ∀ d ∈ prog.decls,
          countInj (propagateForCall prog allowance c ws).2 d ≤
            freshInd ws.ps.paramAdded
              (propagateForCall prog allowance c ws).1.ps.paramAdded d.id := by
      intro allowance c ws hlen hok d hd
      rw [propagateForCall]
      cases hres : (hasContextProviderInPath c.path c.call.pos).2 with
      | some expr =>
        have hne : editToPrependExpr c.call expr ≠ editToPrependCtxParam d := by
          simp only [editToPrependExpr, editToPrependCtxParam, ne_eq,
            TextEdit.mk.injEq]
          intro h
          exact hok.2 d hd (by omega)
        simp [hres, countInj_cons, countInj_nil, hne]
      | none =>
        simp only [hres]
        have hne : editToPrependExpr c.call "ctx" ≠ editToPrependCtxParam d := by
          simp only [editToPrependExpr, editToPrependCtxParam, ne_eq,
            TextEdit.mk.injEq]
          intro h
          exact hok.2 d hd (by omega)
        have hcount := hthrough allowance (pathDecl c.path)
          ⟨ws.seen,
           { paramAdded := ws.ps.paramAdded,
             contextImported := ws.ps.contextImported,
             facts := ws.ps.facts,
             reports := ws.ps.reports ++
               (hasContextProviderInPath c.path c.call.pos).1 }⟩
          hlen hok.1 d hd
        show countInj
            ((propagateThrough prog allowance (pathDecl c.path)
              ⟨ws.seen,
               { paramAdded := ws.ps.paramAdded,
                 contextImported := ws.ps.contextImported,
                 facts := ws.ps.facts,
                 reports := ws.ps.reports ++
                   (hasContextProviderInPath c.path c.call.pos).1 }⟩).2 ++
              [editToPrependExpr c.call "ctx"]) d ≤
          freshInd ws.ps.paramAdded
            (propagateThrough prog allowance (pathDecl c.path)
              ⟨ws.seen,
               { paramAdded := ws.ps.paramAdded,
                 contextImported := ws.ps.contextImported,
                 facts := ws.ps.facts,
                 reports := ws.ps.reports ++
                   (hasContextProviderInPath c.path c.call.pos).1 }⟩).1.ps.paramAdded
            d.id
        have hred : (⟨ws.seen,
            { paramAdded := ws.ps.paramAdded,
              contextImported := ws.ps.contextImported,
              facts := ws.ps.facts,
              reports := ws.ps.reports ++
                (hasContextProviderInPath c.path c.call.pos).1 }⟩ :
            WalkState).ps.paramAdded = ws.ps.paramAdded := rfl
        rw [hred] at hcount
        rw [countInj_append, countInj_cons, countInj_nil]
        simp only [hne, if_false]
        omega
    have hcalls : ∀ allowance (cs : List LocalCall) (ws : WalkState),
        allowance.length ≤ n → (∀ c ∈ cs, callOK prog c) →
        ∀ d ∈ prog.decls,
          countInj (propagateCalls prog allowance cs ws).2 d ≤
            freshInd ws.ps.paramAdded
              (propagateCalls prog allowance cs ws).1.ps.paramAdded d.id := by
      intro allowance cs
      induction cs with
      | nil => intro ws hlen hoks d hd; simp [propagateCalls, countInj_nil]
      | cons c rest ihc =>
        intro ws hlen hoks d hd
        rw [propagateCalls]
        simp only []
        rw [countInj_append]
        have h1 := hforCall allowance c ws hlen (hoks c (by simp)) d hd
        have h2 := ihc (propagateForCall prog allowance c ws).1 hlen
          (fun c' hc' => hoks c' (by simp [hc'])) d hd
        have hm1 := (propagate_paramAdded_mono prog allowance.length).2.1
          allowance c ws (le_refl _)
        have hm2 := (propagate_paramAdded_mono prog allowance.length).2.2
          allowance rest (propagateForCall prog allowance c ws).1 (le_refl _)
        exact freshInd_step _ _ _ _ hm1 hm2 _ _ h1 h2
    exact ⟨hthrough, hforCall, hcalls⟩

/-- `rewriteTODO` only grows the `paramAdded` guard. -/
theorem rewriteTODO_paramAdded_mono (prog : Program) (t : LocalCall) (st : PassState) :
    ∀ i ∈ st.paramAdded, i ∈ (rewriteTODO prog t st).1.paramAdded := by
  intro i hi
  cases hassign : t.assign with
  | some a =>
    simp only [rewriteTODO, hassign]
    exact (propagate_paramAdded_mono prog (idList prog).length).1 _ _ ⟨[], st⟩
      (le_refl _) i hi
  | none =>
    cases hres : (hasContextProviderInPath t.path t.call.pos).2 with
    | some expr => simpa [rewriteTODO, hassign, hres] using hi
    | none =>
      simp only [rewriteTODO, hassign, hres]
      exact (propagate_paramAdded_mono prog (idList prog).length).1 _ _ _
        (le_refl _) i hi

/-- `rewriteTransitives` only grows the `paramAdded` guard. -/
theorem rewriteTransitives_paramAdded_mono (prog : Program) (t : LocalCall)
    (st : PassState) :
    ∀ i ∈ st.paramAdded, i ∈ (rewriteTransitives prog t st).1.paramAdded := by
  intro i hi
  simp only [rewriteTransitives]
  exact (propagate_paramAdded_mono prog (idList prog).length).2.1 _ _ ⟨[], st⟩
    (le_refl _) i hi

/-- One direct-request fix injects a context parameter for `d` at most once,
and only when `d.id` freshly enters the guard. -/
theorem rewriteTODO_countInj (prog : Program) (hwf : progWF prog)
    (t : LocalCall) (st : PassState) (hok : callOK prog t)
    (hne0 : t.call.pos < t.call.endPos) :
    ∀ d ∈ prog.decls,
      countInj (rewriteTODO prog t st).2.edits d ≤
        freshInd st.paramAdded (rewriteTODO prog t st).1.paramAdded d.id := by
  intro d hd
  have hmaster := (propagate_countInj_master prog hwf (idList prog).length).1
  cases hassign : t.assign with
  | some a =>
    simp only [rewriteTODO, hassign]
    rw [countInj_append, countInj_cons, countInj_nil]
    have hdel : (⟨a.pos, a.rhsRparen + 1, ""⟩ : TextEdit) ≠
        editToPrependCtxParam d := by
      simp [editToPrependCtxParam, TextEdit.mk.injEq]
    simp only [hdel, if_false]
    have hcount := hmaster (idList prog) (pathDecl t.path) ⟨[], st⟩
      (le_refl _) hok.1 d hd
    have hred : ((⟨[], st⟩ : WalkState)).ps.paramAdded = st.paramAdded := rfl
    rw [hred] at hcount
    omega
  | none =>
    cases hres : (hasContextProviderInPath t.path t.call.pos).2 with
    | some expr =>
      simp only [rewriteTODO, hassign, hres]
      have hsub : (⟨t.call.pos, t.call.endPos, expr⟩ : TextEdit) ≠
          editToPrependCtxParam d := by
        simp only [editToPrependCtxParam, ne_eq, TextEdit.mk.injEq]
        intro h
        omega
      rw [countInj_cons, countInj_nil]
      simp [hsub]
    | none =>
      simp only [rewriteTODO, hassign, hres]
      rw [countInj_append, countInj_cons, countInj_nil]
      have hsub : (⟨t.call.pos, t.call.endPos, "ctx"⟩ : TextEdit) ≠
          editToPrependCtxParam d := by
        simp only [editToPrependCtxParam, ne_eq, TextEdit.mk.injEq]
        intro h
        omega
      simp only [hsub, if_false]
      have hcount := hmaster (idList prog) (pathDecl t.path)
        ⟨[], { paramAdded := st.paramAdded,
               contextImported := st.contextImported,
               facts := st.facts,
               reports := st.reports ++
                 (hasContextProviderInPath t.path t.call.pos).1 }⟩
        (le_refl _) hok.1 d hd
      have hred : ((⟨[], { paramAdded := st.paramAdded,
                           contextImported := st.contextImported,
                           facts := st.facts,
                           reports := st.reports ++
                             (hasContextProviderInPath t.path t.call.pos).1 }⟩ :
          WalkState)).ps.paramAdded = st.paramAdded := rfl
      rw [hred] at hcount
      omega

/-- One continuation fix injects a context parameter for `d` at most once,
and only when `d.id` freshly enters the guard. -/
theorem rewriteTransitives_countInj (prog : Program) (hwf : progWF prog)
    (t : LocalCall) (st : PassState) (hok : callOK prog t) :
    ∀ d ∈ prog.decls,
      countInj (rewriteTransitives prog t st).2.edits d ≤
        freshInd st.paramAdded (rewriteTransitives prog t st).1.paramAdded d.id := by
  intro d hd
  simp only [rewriteTransitives]
  have hcount := (propagate_countInj_master prog hwf (idList prog).length).2.1
    (idList prog) t ⟨[], st⟩ (le_refl _) hok d hd
  have hred : ((⟨[], st⟩ : WalkState)).ps.paramAdded = st.paramAdded := rfl
  rw [hred] at hcount
  exact hcount

/-- The direct-request loop only grows the guard. -/
theorem rewriteTODOs_paramAdded_mono (prog : Program) :
    ∀ (ts : List LocalCall) (st : PassState),
      ∀ i ∈ st.paramAdded, i ∈ (rewriteTODOs prog ts st).1.paramAdded := by
  intro ts
  induction ts with
  | nil => intro st i hi; simpa [rewriteTODOs] using hi
  | cons t rest ih =>
    intro st i hi
    rw [rewriteTODOs]
    exact ih _ i (rewriteTODO_paramAdded_mono prog t st i hi)

/-- The continuation loop only grows the guard. -/
theorem rewriteTransitivesAll_paramAdded_mono (prog : Program) :
    ∀ (ts : List LocalCall) (st : PassState),
      ∀ i ∈ st.paramAdded, i ∈ (rewriteTransitivesAll prog ts st).1.paramAdded := by
  intro ts
  induction ts with
  | nil => intro st i hi; simpa [rewriteTransitivesAll] using hi
  | cons t rest ih =>
    intro st i hi
    rw [rewriteTransitivesAll]
    exact ih _ i (rewriteTransitives_paramAdded_mono prog t st i hi)

/-- Counting over the direct-request loop. -/
theorem rewriteTODOs_countInj (prog : Program) (hwf : progWF prog) :
    ∀ (ts : List LocalCall) (st : PassState),
      (∀ t ∈ ts, callOK prog t ∧ t.call.pos < t.call.endPos) →
      ∀ d ∈ prog.decls,
        countInj (((rewriteTODOs prog ts st).2.map Diagnostic.edits).flatten) d ≤
          freshInd st.paramAdded (rewriteTODOs prog ts st).1.paramAdded d.id := by
  intro ts
  induction ts with
  | nil => intro st hts d hd; simp [rewriteTODOs, countInj_nil]
  | cons t rest ih =>
    intro st hts d hd
    rw [rewriteTODOs]
    simp only [List.map_cons, List.flatten_cons]
    rw [countInj_append]
    have h1 := rewriteTODO_countInj prog hwf t st (hts t (by simp)).1
      (hts t (by simp)).2 d hd
    have h2 := ih (rewriteTODO prog t st).1
      (fun t' ht' => hts t' (by simp [ht'])) d hd
    exact freshInd_step _ _ _ _
      (rewriteTODO_paramAdded_mono prog t st)
      (rewriteTODOs_paramAdded_mono prog rest (rewriteTODO prog t st).1)
      _ _ h1 h2

/-- Counting over the continuation loop. -/
theorem rewriteTransitivesAll_countInj (prog : Program) (hwf : progWF prog) :
    ∀ (ts : List LocalCall) (st : PassState),
      (∀ t ∈ ts, callOK prog t) →
      ∀ d ∈ prog.decls,
        countInj (((rewriteTransitivesAll prog ts st).2.map Diagnostic.edits).flatten) d ≤
          freshInd st.paramAdded (rewriteTransitivesAll prog ts st).1.paramAdded d.id := by
  intro ts
  induction ts with
  | nil => intro st hts d hd; simp [rewriteTransitivesAll, countInj_nil]
  | cons t rest ih =>
    intro st hts d hd
    rw [rewriteTransitivesAll]
    simp only [List.map_cons, List.flatten_cons]
    rw [countInj_append]
    have h1 := rewriteTransitives_countInj prog hwf t st (hts t (by simp)) d hd
    have h2 := ih (rewriteTransitives prog t st).1
      (fun t' ht' => hts t' (by simp [ht'])) d hd
    exact freshInd_step _ _ _ _
      (rewriteTransitives_paramAdded_mono prog t st)
      (rewriteTransitivesAll_paramAdded_mono prog rest (rewriteTransitives prog t st).1)
      _ _ h1 h2

/-- A zero-width edit overlaps nothing (left operand). -/
theorem zw_not_overlap_left (e1 e2 : TextEdit) (h : e1.pos = e1.endPos) :
    ¬ editsOverlap e1 e2 := by
  simp only [editsOverlap]
  omega

/-- A zero-width edit overlaps nothing (right operand). -/
theorem zw_not_overlap_right (e1 e2 : TextEdit) (h : e2.pos = e2.endPos) :
    ¬ editsOverlap e1 e2 := by
  simp only [editsOverlap]
  omega

/-- The direct-request loop: every emitted edit is zero-width or carries the
range of one of the requests, and for requests with pairwise disjoint ranges
the emitted edits are pairwise non-overlapping. -/
theorem rewriteTODOs_profile (prog : Program) : ∀ (ts : List LocalCall) (st : PassState),
    (∀ e ∈ ((rewriteTODOs prog ts st).2.map Diagnostic.edits).flatten,
       e.pos = e.endPos ∨ ∃ t ∈ ts, e.pos = todoRangeStart t ∧ e.endPos = todoRangeEnd t) ∧
    (List.Pairwise todosDisjoint ts →
      List.Pairwise (fun e1 e2 => ¬ editsOverlap e1 e2)
        ((rewriteTODOs prog ts st).2.map Diagnostic.edits).flatten) := by
  intro ts
  induction ts with
  | nil => intro st; simp [rewriteTODOs]
  | cons t rest ih =>
    intro st
    have hflat :
        ((rewriteTODOs prog (t :: rest) st).2.map Diagnostic.edits).flatten =
          (rewriteTODO prog t st).2.edits ++
            ((rewriteTODOs prog rest (rewriteTODO prog t st).1).2.map
              Diagnostic.edits).flatten := by
      simp [rewriteTODOs]
    obtain ⟨zws, last, hshape, hzws, hlast1, hlast2⟩ :=
      rewriteTODO_edits_shape prog t st
    have hmemt : ∀ e ∈ (rewriteTODO prog t st).2.edits,
        e.pos = e.endPos ∨ (e.pos = todoRangeStart t ∧ e.endPos = todoRangeEnd t) := by
      intro e he
      rw [hshape] at he
      rcases List.mem_append.mp he with h1 | h1
      · exact Or.inl (hzws e h1)
      · simp only [List.mem_singleton] at h1
        subst h1
        exact Or.inr ⟨hlast1, hlast2⟩
    constructor
    · intro e he
      rw [hflat] at he
      rcases List.mem_append.mp he with h1 | h1
      · rcases hmemt e h1 with h2 | h2
        · exact Or.inl h2
        · exact Or.inr ⟨t, by simp, h2⟩
      · rcases (ih _).1 e h1 with h2 | h2
        · exact Or.inl h2
        · obtain ⟨t', ht', h3⟩ := h2
          exact Or.inr ⟨t', by simp [ht'], h3⟩
    · intro hpair
      rw [hflat]
      apply List.pairwise_append.mpr
      refine ⟨?_, (ih _).2 (List.Pairwise.sublist (by simp) hpair), ?_⟩
      · rw [hshape]
        apply List.pairwise_append.mpr
        refine ⟨?_, by simp, ?_⟩
        · exact List.pairwise_of_forall_mem_list
            (fun a ha b _ => zw_not_overlap_left a b (hzws a ha))
        · intro a ha b hb
          exact zw_not_overlap_left a b (hzws a ha)
      · intro e1 h1 e2 h2
        rcases hmemt e1 h1 with hz | hr
        · exact zw_not_overlap_left e1 e2 hz
        rcases (ih _).1 e2 h2 with hz2 | hr2
        · exact zw_not_overlap_right e1 e2 hz2
        obtain ⟨t', ht', hr2⟩ := hr2
        have hdisj : todosDisjoint t t' :=
          (List.pairwise_cons.mp hpair).1 t' ht'
        simp only [editsOverlap, todosDisjoint] at *
        omega

/-- The continuation loop emits only zero-width edits. -/
theorem rewriteTransitivesAll_edits_zw (prog : Program) :
    ∀ (ts : List LocalCall) (st : PassState),
      ∀ e ∈ ((rewriteTransitivesAll prog ts st).2.map Diagnostic.edits).flatten,
        e.pos = e.endPos := by
  intro ts
  induction ts with
  | nil => intro st e he; simp [rewriteTransitivesAll] at he
  | cons t rest ih =>
    intro st e he
    rw [rewriteTransitivesAll] at he
    simp only [List.map_cons, List.flatten_cons, List.mem_append] at he
    rcases he with h1 | h1
    · exact rewriteTransitives_edits_zw prog t st e h1
    · exact ih _ e h1

/-! ## Counterexamples and code evaluations -/

/-- C1, counterexample.  `fEx1` has one unnamed parameter of type
`context.Context`, which would qualify as a provider (so the claim's premise
holds: the naming diagnostic is emitted), yet the suggested fix for the
request in `progEx1` is a provider-based rewrite — the request expression is
substituted with `unnamedParam0`, a synthetic reference to that very
parameter — contradicting "only the naming diagnostic … never a
provider-based rewrite".  (The source's golden test `preexisting` and its
README document this behaviour.) -/
theorem c1_counterexample :
    qualifies (⟨"", 30, contextContext⟩ : Param).type = true ∧
    (rewriteTODO progEx1 todoEx1 initialState).1.reports = [Report.naming 30] ∧
    (rewriteTODO progEx1 todoEx1 initialState).2.edits =
      [⟨40, 55, "unnamedParam0"⟩] := by
  decide

/-- C2, counterexample.  In `progEx2` the request is in assignment form
(`ctx := context.TODO()`), and the local variable `myctx : context.Context`
is a qualifying provider visible at the request's position (first conjunct);
yet the fix injects a new context parameter into the enclosing procedure
(the edit `editToPrependCtxParam fEx2` appears), because the assignment form
runs `propagateContextThrough` without consulting the resolver. -/
theorem c2_counterexample :
    (hasContextProviderInPath todoEx2.path todoEx2.call.pos = ([], some "myctx")) ∧
    editToPrependCtxParam fEx2 ∈ (rewriteTODO progEx2 todoEx2 initialState).2.edits := by
  refine ⟨by decide, ?_⟩
  simp [rewriteTODO, todoEx2, progEx2, fEx2, pathDecl, idList, initialState,
    propagateThrough, earlyBranch, isMainOrInit, isTopLevelTestFunc,
    topLevelTestFuncMatch, prefixThenUpper, hasContextProviderParam,
    hasContextProviderParamAux, isContextContext, typeHasContextMethod,
    editToImportContext, callersOf, propagateCalls, editToPrependCtxParam]

/-- C3, counterexample.  `fEx3` declares `ctx` of a non-context type; the
ambiguity diagnostic is emitted and no parameter is injected, but —
contradicting "the request inside it is not rewritten" — the suggested fix
still substitutes the request expression with `ctx`. -/
theorem c3_counterexample :
    (rewriteTODO progEx3 todoEx3 initialState).1.reports = [Report.ambiguity 3] ∧
    (rewriteTODO progEx3 todoEx3 initialState).2.edits = [⟨40, 55, "ctx"⟩] := by
  constructor <;>
    simp [rewriteTODO, todoEx3, progEx3, fEx3, pathDecl, idList, initialState,
      propagateThrough, earlyBranch, isMainOrInit, isTopLevelTestFunc,
      topLevelTestFuncMatch, prefixThenUpper, hasSuffixStr,
      hasContextProviderInPath, hasContextProviderInPathRev,
      hasContextProviderParam, hasContextProviderParamAux,
      hasContextProviderInScope, isContextContext, typeHasContextMethod,
      editToImportContext, callersOf, propagateCalls]

/-- C4, counterexample.  `fEx4` (`TestFoo` in `foo_test.go`) is an entry
point by the claim's own characterization, and the request in it has no
reachable provider; yet the fix contains no local root-context declaration —
the wrongly-typed `ctx` parameter is checked before the entry-point rule, so
only the ambiguity diagnostic and the `ctx` substitution are produced. -/
theorem c4_counterexample :
    isTopLevelTestFunc fEx4 = true ∧
    (hasContextProviderInPath todoEx4.path todoEx4.call.pos).2 = none ∧
    (rewriteTODO progEx4 todoEx4 initialState).2.edits = [⟨40, 55, "ctx"⟩] ∧
    editToAddContextVarDecl fEx4 "context.Background()" ∉
      (rewriteTODO progEx4 todoEx4 initialState).2.edits := by
  have h : (rewriteTODO progEx4 todoEx4 initialState).2.edits = [⟨40, 55, "ctx"⟩] := by
    simp [rewriteTODO, todoEx4, progEx4, fEx4, pathDecl, idList, initialState,
      propagateThrough, earlyBranch, isMainOrInit, isTopLevelTestFunc,
      topLevelTestFuncMatch, prefixThenUpper, hasSuffixStr,
      hasContextProviderInPath, hasContextProviderInPathRev,
      hasContextProviderParam, hasContextProviderParamAux,
      hasContextProviderInScope, isContextContext, typeHasContextMethod,
      editToImportContext, callersOf, propagateCalls]
  refine ⟨by decide, by decide, h, ?_⟩
  rw [h]
  decide

/-- C6, counterexample.  The request sits inside a block whose scope declares
`c0 : context.Context` at position 5, strictly before the query position 10.
The search the claim describes (parameters of the innermost procedure, then
the local variables of each enclosing lexical scope) finds `c0`; the source's
resolver finds nothing, because its path walk only consults procedure and
closure nodes and never the scope of an intermediate block. -/
theorem c6_counterexample :
    specResolverClaimed pathEx6.reverse 10 = some "c0" ∧
    hasContextProviderInPath pathEx6 10 = ([], none) := by
  decide

/-- C7, evaluation at the failing input.  `tEx7` has a `Context` method with
one parameter returning `context.Context`: `typeHasContextMethod` accepts it
(the source never checks the parameter count), the claim's zero-argument rule
rejects it, and a parameter of this type is returned as a provider with the
expression `r.Context()` — a call that would not compile. -/
theorem c7_code_evaluation :
    typeHasContextMethod tEx7 = true ∧
    specQualifiesC7 tEx7 = false ∧
    (hasContextProviderParam [⟨"r", 3, tEx7⟩]).2 = some "r.Context()" := by
  decide

/-- C1, amended claim.  For every bare direct request whose enclosing
procedure's first qualifying parameter (no earlier parameter qualifies) is
unnamed, the pass emits the naming diagnostic for that parameter *and still
performs the provider-based rewrite*: the request expression is substituted
in place with the synthetic reference `unnamedParam<i>` (or
`unnamedParam<i>.Context()` for the accessor case). -/
theorem c1_amended_unnamed_param_rewrite (prog : Program) (st : PassState)
    (d : FuncDecl) (call : CallExprInfo) (pre post : List Param) (p : Param)
    (hparams : d.params = pre ++ p :: post)
    (hname : p.name = "") (hq : qualifies p.type = true)
    (hpre : ∀ q ∈ pre, qualifies q.type = false) :
    (rewriteTODO prog ⟨[.funcDeclNode d], call, none⟩ st).2.edits =
      [⟨call.pos, call.endPos, synthProviderExpr pre.length p⟩] ∧
    (rewriteTODO prog ⟨[.funcDeclNode d], call, none⟩ st).1.reports =
      st.reports ++ [Report.naming p.pos] := by
  have hparam :
      hasContextProviderParam d.params =
        ([Report.naming p.pos], some (synthProviderExpr pre.length p)) := by
    rw [hparams]
    have := hasContextProviderParamAux_unnamed 0 pre p post hname hq hpre
    simpa [hasContextProviderParam] using this
  have hres :
      hasContextProviderInPath [PathNode.funcDeclNode d] call.pos =
        ([Report.naming p.pos], some (synthProviderExpr pre.length p)) := by
    simp [hasContextProviderInPath, hasContextProviderInPathRev, hparam]
  simp [rewriteTODO, hres]

/-- C1, witness for the amended claim at `progEx1`. -/
theorem c1_amended_witness :
    (rewriteTODO progEx1 ⟨[.funcDeclNode fEx1], ⟨40, 55, 41⟩, none⟩ initialState).2.edits =
      [⟨40, 55, synthProviderExpr 0 ⟨"", 30, contextContext⟩⟩] ∧
    (rewriteTODO progEx1 ⟨[.funcDeclNode fEx1], ⟨40, 55, 41⟩, none⟩ initialState).1.reports =
      initialState.reports ++ [Report.naming 30] :=
  c1_amended_unnamed_param_rewrite progEx1 initialState fEx1 ⟨40, 55, 41⟩
    [] [] ⟨"", 30, contextContext⟩ rfl rfl (by decide) (by intro q hq; cases hq)

/-- C2, amended claim (the half that holds): for every *bare-call* direct
request at whose position a qualifying provider is visible, the suggested fix
is exactly the in-place substitution of the request expression by the
provider expression, and the pass state is unchanged except for the
resolver's reports — in particular no parameter-injection edit is produced
and `paramAdded` is untouched.  (For the assignment form the binding is
deleted and ensure-context runs on the enclosing procedure regardless of
visible providers, which can inject a parameter — see the
counterexample.) -/
theorem c2_amended_bare_provider_no_injection (prog : Program) (st : PassState)
    (todo : LocalCall) (expr : String) (reps : List Report)
    (hbare : todo.assign = none)
    (hprov : hasContextProviderInPath todo.path todo.call.pos = (reps, some expr)) :
    rewriteTODO prog todo st =
      ({ st with reports := st.reports ++ reps },
       ⟨todo.call.pos, todo.call.endPos, "Plumb context",
        [⟨todo.call.pos, todo.call.endPos, expr⟩]⟩) := by
  simp [rewriteTODO, hbare, hprov]

/-- C2, witness for the amended claim: the bare-form variant of `progEx2`'s
request, with the local provider `myctx` visible. -/
theorem c2_amended_witness :
    rewriteTODO progEx2 todoEx2b initialState =
      ({ initialState with reports := initialState.reports ++ [] },
       ⟨26, 36, "Plumb context", [⟨26, 36, "myctx"⟩]⟩) :=
  c2_amended_bare_provider_no_injection progEx2 initialState todoEx2b
    "myctx" [] rfl (by decide)

/-- C3, amended claim.  For every bare direct request with no visible
provider whose enclosing procedure declares `ctx` with a non-context type,
the pass emits the ambiguity diagnostic and injects nothing into that
procedure (ensure-context returns no edits), but the request is still
rewritten: the suggested fix substitutes the request expression with
`ctx`. -/
theorem c3_amended_wrong_ctx_param (prog : Program) (st : PassState)
    (d : FuncDecl) (todo : LocalCall) (p : Param) (reps : List Report)
    (hbare : todo.assign = none)
    (hdecl : pathDecl todo.path = some d)
    (hfind : d.params.find? (fun q => q.name == "ctx") = some p)
    (hwrong : isContextContext p.type = false)
    (hprov : hasContextProviderInPath todo.path todo.call.pos = (reps, none))
    (hid : d.id ∈ idList prog)
    (hpa : d.id ∉ st.paramAdded) :
    (rewriteTODO prog todo st).2.edits = [⟨todo.call.pos, todo.call.endPos, "ctx"⟩] ∧
    (rewriteTODO prog todo st).1.reports =
      st.reports ++ reps ++ [Report.ambiguity d.id] := by
  have hthrough :
      propagateThrough prog (idList prog) (some d)
          ⟨[], { st with reports := st.reports ++ reps }⟩ =
        (⟨[d.id], { st with
            paramAdded := d.id :: st.paramAdded,
            reports := st.reports ++ reps ++ [Report.ambiguity d.id] }⟩, []) := by
    rw [propagateThrough]
    simp [hid, hpa, earlyBranch, hfind, hwrong]
  simp [rewriteTODO, hbare, hprov, hdecl, hthrough]

/-- C3, witness for the amended claim at `progEx3`. -/
theorem c3_amended_witness :
    (rewriteTODO progEx3 todoEx3 initialState).2.edits = [⟨40, 55, "ctx"⟩] ∧
    (rewriteTODO progEx3 todoEx3 initialState).1.reports =
      initialState.reports ++ [] ++ [Report.ambiguity 3] :=
  c3_amended_wrong_ctx_param progEx3 initialState fEx3 todoEx3
    ⟨"ctx", 30, .basic⟩ [] rfl rfl rfl rfl rfl (by decide) (by decide)

/-- C4, amended claim.  For every direct request with no reachable provider
in an entry-point procedure (program start, receiverless `init`, or a
`Test`/`Benchmark`/`Fuzz`-named function in a `_test.go` file), *provided the
procedure declares no parameter named `ctx`*, the fix's first edit declares
the local root context (`ctx := context.Background();` right after the
body's opening brace) and no edit adds a context parameter.  (A wrongly-typed
`ctx` parameter instead yields only the ambiguity diagnostic — see the
counterexample.) -/
theorem c4_amended_entry_point_local_root (prog : Program) (st : PassState)
    (d : FuncDecl) (todo : LocalCall) (reps : List Report)
    (hdecl : pathDecl todo.path = some d)
    (hentry : (isMainOrInit d || isTopLevelTestFunc d) = true)
    (hctx : d.params.find? (fun q => q.name == "ctx") = none)
    (hprov : hasContextProviderInPath todo.path todo.call.pos = (reps, none))
    (hid : d.id ∈ idList prog)
    (hpa : d.id ∉ st.paramAdded) :
    (rewriteTODO prog todo st).2.edits.head? =
      some (editToAddContextVarDecl d "context.Background()") ∧
    ∀ e ∈ (rewriteTODO prog todo st).2.edits,
      e.newText ≠ "ctx context.Context, " := by
  have hthrough : ∀ st' : PassState, d.id ∉ st'.paramAdded →
      ∃ stOut : WalkState,
        propagateThrough prog (idList prog) (some d) ⟨[], st'⟩ =
          (stOut,
           editToAddContextVarDecl d "context.Background()" ::
            (editToImportContext
              { st' with paramAdded := d.id :: st'.paramAdded } prog d.fileName).2) := by
    intro st' hpa'
    rw [propagateThrough]
    simp [hid, hpa', earlyBranch, hctx, hentry]
  cases hassign : todo.assign with
  | some a =>
    obtain ⟨stOut, hth⟩ := hthrough st hpa
    constructor
    · simp [rewriteTODO, hassign, hdecl, hth]
    · intro e he
      simp only [rewriteTODO, hassign, hdecl, hth] at he
      rcases List.mem_append.mp he with h1 | h1
      · rcases List.mem_cons.mp h1 with h2 | h2
        · subst h2; simp [editToAddContextVarDecl]
        · rcases editToImportContext_edits _ prog d.fileName e h2 with ⟨_, h3 | h3⟩ <;>
            simp [h3]
      · simp only [List.mem_singleton] at h1
        subst h1; simp
  | none =>
    obtain ⟨stOut, hth⟩ := hthrough { st with reports := st.reports ++ reps } hpa
    constructor
    · simp [rewriteTODO, hassign, hdecl, hprov, hth]
    · intro e he
      simp only [rewriteTODO, hassign, hdecl, hprov, hth] at he
      rcases List.mem_append.mp he with h1 | h1
      · rcases List.mem_cons.mp h1 with h2 | h2
        · subst h2; simp [editToAddContextVarDecl]
        · rcases editToImportContext_edits _ prog d.fileName e h2 with ⟨_, h3 | h3⟩ <;>
            simp [h3]
      · simp only [List.mem_singleton] at h1
        subst h1; simp

/-- C4, witness for the amended claim: `main` in package `main` with a bare
request and no provider. -/
theorem c4_amended_witness :
    (rewriteTODO progEx4m todoEx4m initialState).2.edits.head? =
      some (editToAddContextVarDecl fEx4m "context.Background()") ∧
    ∀ e ∈ (rewriteTODO progEx4m todoEx4m initialState).2.edits,
      e.newText ≠ "ctx context.Context, " :=
  c4_amended_entry_point_local_root progEx4m initialState fEx4m todoEx4m []
    rfl (by decide) rfl rfl (by decide) (by decide)

/-- The parameter scan returns the head of its candidate sequence. -/
theorem hasContextProviderParamAux_eq_head (i : Nat) (ps : List Param) :
    (hasContextProviderParamAux i ps).2 = (paramCandidates i ps).head? := by
  induction ps generalizing i with
  | nil => rfl
  | cons p rest ih =>
    by_cases hcc : isContextContext p.type
    · simp [hasContextProviderParamAux, paramCandidates, hcc]
    · by_cases hm : typeHasContextMethod p.type
      · simp [hasContextProviderParamAux, paramCandidates, hcc, hm]
      · simp [hasContextProviderParamAux, paramCandidates, hcc, hm, ih]

/-- The field scan returns the head of its candidate sequence. -/
theorem hasContextProviderFieldAux_eq_head (i : Nat) (fs : List GoField) :
    (hasContextProviderFieldAux i fs).2 = (fieldCandidates i fs).head? := by
  induction fs generalizing i with
  | nil => rfl
  | cons f rest ih =>
    cases ht : f.type with
    | none => simp [hasContextProviderFieldAux, fieldCandidates, ht, ih]
    | some t =>
      by_cases hcc : isContextContext t
      · simp [hasContextProviderFieldAux, fieldCandidates, ht, hcc]
      · by_cases hm : typeHasContextMethod t
        · simp [hasContextProviderFieldAux, fieldCandidates, ht, hcc, hm]
        · simp [hasContextProviderFieldAux, fieldCandidates, ht, hcc, hm, ih]

/-- The scope scan returns the head of its candidate sequence. -/
theorem hasContextProviderInScope_eq_head (sc : List ScopeEntry) (atPos : Nat) :
    hasContextProviderInScope sc atPos = (scopeCandidates atPos sc).head? := by
  induction sc with
  | nil => rfl
  | cons v rest ih =>
    by_cases hpos : v.pos ≥ atPos
    · simp [hasContextProviderInScope, scopeCandidates, hpos, ih]
    · by_cases hcc : isContextContext v.type
      · simp [hasContextProviderInScope, scopeCandidates, hpos, hcc]
      · by_cases hm : typeHasContextMethod v.type
        · simp [hasContextProviderInScope, scopeCandidates, hpos, hcc, hm]
        · simp [hasContextProviderInScope, scopeCandidates, hpos, hcc, hm, ih]

/-- The path resolver returns the head of its candidate sequence (path given
innermost first). -/
theorem hasContextProviderInPathRev_eq_head (l : List PathNode) (atPos : Nat) :
    (hasContextProviderInPathRev atPos l).2 =
      (resolverCandidatesRev atPos l).head? := by
  induction l generalizing atPos with
  | nil => rfl
  | cons node rest ih =>
    cases node with
    | assignStmt pos =>
      simp [hasContextProviderInPathRev, resolverCandidatesRev, ih]
    | blockNode sc =>
      simp [hasContextProviderInPathRev, resolverCandidatesRev, ih]
    | funcDeclNode d =>
      cases hp : hasContextProviderParam d.params with
      | mk reps r =>
        have hp2 : (paramCandidates 0 d.params).head? = r := by
          rw [← hasContextProviderParamAux_eq_head]
          simp [hasContextProviderParam] at hp
          rw [hp]
        cases r with
        | some e =>
          simp [hasContextProviderInPathRev, resolverCandidatesRev, hp,
            List.head?_append, hp2]
        | none =>
          cases hs : hasContextProviderInScope d.scope atPos with
          | some e =>
            simp [hasContextProviderInPathRev, resolverCandidatesRev, hp,
              List.head?_append, hp2,
              (hasContextProviderInScope_eq_head d.scope atPos).symm, hs]
          | none =>
            simp [hasContextProviderInPathRev, resolverCandidatesRev, hp,
              List.head?_append, hp2,
              (hasContextProviderInScope_eq_head d.scope atPos).symm, hs, ih]
    | funcLitNode fields sc =>
      cases hp : hasContextProviderField fields with
      | mk reps r =>
        have hp2 : (fieldCandidates 0 fields).head? = r := by
          rw [← hasContextProviderFieldAux_eq_head]
          simp [hasContextProviderField] at hp
          rw [hp]
        cases r with
        | some e =>
          simp [hasContextProviderInPathRev, resolverCandidatesRev, hp,
            List.head?_append, hp2]
        | none =>
          cases hs : hasContextProviderInScope sc atPos with
          | some e =>
            simp [hasContextProviderInPathRev, resolverCandidatesRev, hp,
              List.head?_append, hp2,
              (hasContextProviderInScope_eq_head sc atPos).symm, hs]
          | none =>
            simp [hasContextProviderInPathRev, resolverCandidatesRev, hp,
              List.head?_append, hp2,
              (hasContextProviderInScope_eq_head sc atPos).symm, hs, ih]

/-- C6, amended claim.  The resolver is first-match-wins over exactly this
candidate sequence: for each enclosing procedure or closure from innermost to
outermost, the qualifying formal parameters in declaration order (unnamed
ones under synthetic names) followed by the qualifying function-scope
variables declared strictly before the query position (the query position
being reset to the start of an enclosing assignment while walking out of it);
intermediate non-function scopes contribute no candidates; if the sequence is
empty, resolution fails (`none`). -/
theorem c6_amended_resolver_order (path : List PathNode) (atPos : Nat) :
    (hasContextProviderInPath path atPos).2 =
      (resolverCandidatesRev atPos path.reverse).head? := by
  unfold hasContextProviderInPath
  exact hasContextProviderInPathRev_eq_head path.reverse atPos

/-- C8.  The final edit set of one compilation-unit pass is pairwise
non-overlapping: provided the direct requests found by the call-graph walk
have pairwise disjoint source ranges (distinct AST nodes of one parse tree),
no two emitted Edit Operations have intersecting half-open ranges — every
edit except the one substitution/deletion per request is a zero-width
insertion, and those carry the requests' disjoint ranges. -/
theorem c8_edits_nonoverlapping (prog : Program)
    (h : List.Pairwise todosDisjoint prog.todos) :
    List.Pairwise (fun e1 e2 => ¬ editsOverlap e1 e2) (passEdits prog) := by
  have hflat : passEdits prog =
      ((rewriteTODOs prog prog.todos initialState).2.map Diagnostic.edits).flatten ++
        ((rewriteTransitivesAll prog prog.transitives
            (rewriteTODOs prog prog.todos initialState).1).2.map
          Diagnostic.edits).flatten := by
    simp [passEdits, buildDiagnostics]
  rw [hflat]
  apply List.pairwise_append.mpr
  refine ⟨(rewriteTODOs_profile prog prog.todos initialState).2 h, ?_, ?_⟩
  · exact List.pairwise_of_forall_mem_list fun a ha b _ =>
      zw_not_overlap_left a b (rewriteTransitivesAll_edits_zw prog _ _ a ha)
  · intro e1 _ e2 h2
    exact zw_not_overlap_right e1 e2 (rewriteTransitivesAll_edits_zw prog _ _ e2 h2)

/-- C8, witness: the cyclic program `progEx8` with two disjoint requests. -/
theorem c8_witness :
    List.Pairwise todosDisjoint progEx8.todos ∧
    List.Pairwise (fun e1 e2 => ¬ editsOverlap e1 e2) (passEdits progEx8) :=
  ⟨by decide, c8_edits_nonoverlapping progEx8 (by decide)⟩

/-- C5.  The propagation walks terminate for any input — the mutually
recursive `propagateThrough` / `propagateForCall` / `propagateCalls` are
accepted as total functions, their recursion bounded by the strictly
shrinking complement of the `seen` set, cycles included — and each
declaration receives at most one injected context-parameter edit across the
whole compilation-unit pass: under the well-formedness of a real syntax tree
(`progWF`), the parameter-injection edit of each declaration occurs at most
once among all edits the pass emits, guarded by the pass-wide `paramAdded`
set even across separate walks. -/
theorem c5_param_injection_at_most_once (prog : Program) (hwf : progWF prog) :
    ∀ d ∈ prog.decls, countInj (passEdits prog) d ≤ 1 := by
  intro d hd
  have hflat : passEdits prog =
      ((rewriteTODOs prog prog.todos initialState).2.map Diagnostic.edits).flatten ++
        ((rewriteTransitivesAll prog prog.transitives
            (rewriteTODOs prog prog.todos initialState).1).2.map
          Diagnostic.edits).flatten := by
    simp [passEdits, buildDiagnostics]
  rw [hflat, countInj_append]
  have h1 := rewriteTODOs_countInj prog hwf prog.todos initialState
    (fun t ht => ⟨hwf.2.2.2.1 t ht, hwf.2.2.2.2.2 t ht⟩) d hd
  have h2 := rewriteTransitivesAll_countInj prog hwf prog.transitives
    (rewriteTODOs prog prog.todos initialState).1
    (fun t ht => hwf.2.2.2.2.1 t ht) d hd
  have hstep := freshInd_step initialState.paramAdded
    (rewriteTODOs prog prog.todos initialState).1.paramAdded
    (rewriteTransitivesAll prog prog.transitives
      (rewriteTODOs prog prog.todos initialState).1).1.paramAdded d.id
    (rewriteTODOs_paramAdded_mono prog prog.todos initialState)
    (rewriteTransitivesAll_paramAdded_mono prog prog.transitives _)
    _ _ h1 h2
  have hone := freshInd_le_one initialState.paramAdded
    (rewriteTransitivesAll prog prog.transitives
      (rewriteTODOs prog prog.todos initialState).1).1.paramAdded d.id
  omega

/-- C5, concrete well-formedness of the cyclic program `progEx5`. -/
theorem progEx5_wf : progWF progEx5 := by
  have hpa : pathDecl callEx5ba.path = some fEx5b := rfl
  have hpb : pathDecl callEx5ab.path = some fEx5a := rfl
  have hpt : pathDecl todoEx5.path = some fEx5a := rfl
  refine ⟨?_, ?_, ?_, ?_, ?_, ?_⟩
  · intro d1 h1 d2 h2 h
    simp only [progEx5, List.mem_cons, List.not_mem_nil, or_false] at h1 h2
    rcases h1 with rfl | rfl <;> rcases h2 with rfl | rfl <;>
      simp_all [fEx5a, fEx5b]
  · intro d1 h1 d2 h2
    simp only [progEx5, List.mem_cons, List.not_mem_nil, or_false] at h1 h2
    rcases h1 with rfl | rfl <;> rcases h2 with rfl | rfl <;>
      simp [fEx5a, fEx5b]
  · intro kv hkv c hc
    simp only [progEx5, List.mem_cons, List.not_mem_nil, or_false] at hkv
    rcases hkv with rfl | rfl <;>
      simp only [List.mem_cons, List.not_mem_nil, or_false] at hc <;>
      subst hc
    · exact ⟨by rw [hpa]; intro x hx; simp only [Option.toList_some,
        List.mem_singleton] at hx; subst hx; simp [progEx5],
        by intro d2 h2; simp only [progEx5, List.mem_cons,
          List.not_mem_nil, or_false] at h2;
           rcases h2 with rfl | rfl <;> simp [callEx5ba, fEx5a, fEx5b]⟩
    · exact ⟨by rw [hpb]; intro x hx; simp only [Option.toList_some,
        List.mem_singleton] at hx; subst hx; simp [progEx5],
        by intro d2 h2; simp only [progEx5, List.mem_cons,
          List.not_mem_nil, or_false] at h2;
           rcases h2 with rfl | rfl <;> simp [callEx5ab, fEx5a, fEx5b]⟩
  · intro c hc
    simp only [progEx5, List.mem_cons, List.not_mem_nil, or_false] at hc
    subst hc
    exact ⟨by rw [hpt]; intro x hx; simp only [Option.toList_some,
      List.mem_singleton] at hx; subst hx; simp [progEx5],
      by intro d2 h2; simp only [progEx5, List.mem_cons,
        List.not_mem_nil, or_false] at h2;
         rcases h2 with rfl | rfl <;> simp [todoEx5, fEx5a, fEx5b]⟩
  · intro c hc
    simp only [progEx5, List.not_mem_nil] at hc
  · intro t ht
    simp only [progEx5, List.mem_cons, List.not_mem_nil, or_false] at ht
    subst ht
    simp [todoEx5]

/-- C5, witness: the two-procedure cycle with one request terminates and
injects each parameter exactly at most once. -/
theorem c5_witness :
    progWF progEx5 ∧ fEx5a ∈ progEx5.decls ∧
      countInj (passEdits progEx5) fEx5a ≤ 1 :=
  ⟨progEx5_wf, by simp [progEx5],
   c5_param_injection_at_most_once progEx5 progEx5_wf fEx5a (by simp [progEx5])⟩

/-- C9, evaluation at the failing input.  `diagEx9` is positioned in an
ordinary source file but its only suggested edit lies (valid positions 2 and
3) in a file under the module cache `/go/pkg/mod`.  The claim says such a
diagnostic is dropped; the filter forwards it, because it tests the prefix
against the file of the diagnostic's own position (`diag.Pos`), never against
the edit's position it loops over. -/
theorem c9_code_evaluation :
    specDropsDiagnostic fileOfEx9 "/go/pkg/mod" diagEx9 = true ∧
    filterReportsKeeps fileOfEx9 "/go/pkg/mod" diagEx9 = true := by
  decide

/-- C10.  A single assignment `name := context.TODO()` whose left-hand
identifier is neither `ctx` nor `_` is not matched by `walkAssignStmt`; the
walker descends and `walkCallExpr` records the call as a *bare* direct
request (no assignment attached).  The fix of any bare request touches the
source only at the request expression itself — every edit is a zero-width
insertion or the in-place substitution of exactly the call's range — so the
`name :=` binding stays intact.  Whole-assignment deletion can only come from
an assignment-form request, and `walkAssignStmt` produces one only when the
left-hand side is the identifier `ctx` or `_`. -/
theorem c10_nonconventional_assign_inplace (stack : List PathNode)
    (a : AssignNode) (name : String) (c : CallNode) (o : ObjInfo)
    (hlhs : a.lhs = [.ident name]) (hrhs : a.rhs = [.callE c])
    (hn1 : name ≠ "ctx") (hn2 : name ≠ "_")
    (hfn : c.fn = .fSelector (some o)) (htodo : isContextTODOObj o = true) :
    classifyAssign stack a =
      ([⟨stack ++ [PathNode.assignStmt a.pos], callInfo c, none⟩], [], []) ∧
    (∀ (prog : Program) (st : PassState) (lc : LocalCall), lc.assign = none →
      ∀ e ∈ (rewriteTODO prog lc st).2.edits,
        e.pos = e.endPos ∨ (e.pos = lc.call.pos ∧ e.endPos = lc.call.endPos)) ∧
    (∀ (stack' : List PathNode) (a' : AssignNode) (lc : LocalCall),
      walkAssignStmt stack' a' = some lc →
      ∃ n', a'.lhs = [.ident n'] ∧ (n' = "ctx" ∨ n' = "_")) := by
  refine ⟨?_, ?_, ?_⟩
  · have hwa : walkAssignStmt stack a = none := by
      simp [walkAssignStmt, hlhs, hrhs, hn1, hn2]
    simp [classifyAssign, hwa, hrhs, walkCallExpr, hfn, htodo]
  · intro prog st lc hbare e he
    obtain ⟨zws, last, hshape, hzws, hlast1, hlast2⟩ :=
      rewriteTODO_edits_shape prog lc st
    rw [hshape] at he
    rcases List.mem_append.mp he with h1 | h1
    · exact Or.inl (hzws e h1)
    · simp only [List.mem_singleton] at h1
      subst h1
      refine Or.inr ⟨?_, ?_⟩
      · rw [hlast1]; simp [todoRangeStart, hbare]
      · rw [hlast2]; simp [todoRangeEnd, hbare]
  · intro stack' a' lc h
    unfold walkAssignStmt at h
    cases hL : a'.lhs with
    | nil => rw [hL] at h; simp at h
    | cons lhs0 ltail =>
      cases ltail with
      | cons x xs => rw [hL] at h; simp at h
      | nil =>
        cases hR : a'.rhs with
        | nil => rw [hL, hR] at h; simp at h
        | cons rhs0 rtail =>
          cases rtail with
          | cons y ys => rw [hL, hR] at h; simp at h
          | nil =>
            rw [hL, hR] at h
            cases lhs0 with
            | nonIdent => simp at h
            | ident n' =>
              by_cases hc : (n' == "ctx" || n' == "_") = true
              · refine ⟨n', rfl, ?_⟩
                rcases Bool.or_eq_true_iff.mp hc with h' | h'
                · exact Or.inl (by simpa using h')
                · exact Or.inr (by simpa using h')
              · simp only [hc, Bool.false_eq_true, if_false] at h
                cases h

/-- C10, witness at the concrete assignment `myctx := context.TODO()`. -/
theorem c10_witness :
    classifyAssign [] assignEx10 =
      ([⟨[PathNode.assignStmt 20], callInfo callEx10, none⟩], [], []) ∧
    (∀ (prog : Program) (st : PassState) (lc : LocalCall), lc.assign = none →
      ∀ e ∈ (rewriteTODO prog lc st).2.edits,
        e.pos = e.endPos ∨ (e.pos = lc.call.pos ∧ e.endPos = lc.call.endPos)) ∧
    (∀ (stack' : List PathNode) (a' : AssignNode) (lc : LocalCall),
      walkAssignStmt stack' a' = some lc →
      ∃ n', a'.lhs = [.ident n'] ∧ (n' = "ctx" ∨ n' = "_")) :=
  c10_nonconventional_assign_inplace [] assignEx10 "myctx" callEx10 objEx10
    rfl rfl (by decide) (by decide) rfl (by decide)

end Ctxtodo
